import Mathlib

/-!
# Verification of the draft/official publication workflow

A shallow embedding of `course_discovery/apps/course_metadata/utils.py`:
courses, course runs, seats and entitlements are rows of a small relational
database, and the functions of the source file are translated into pure Lean
functions over that database.  Django's ORM is modelled explicitly:

* a row's primary key is a `Nat`; `pk = None` followed by `save()` is modelled
  by assigning the next fresh key before inserting;
* `Model.everything` (the manager that includes drafts) and `Model.objects`
  (the default manager, which excludes drafts) are `find?` queries over the
  row list;
* many-to-many relations live in a separate join component keyed by
  `(table, pk, field-name)`, so that a freshly inserted row starts with empty
  relation sets exactly as in Django;
* exceptions are explicit: operations that can raise return `Option`/`Except`
  values, and state that survives an exception (no enclosing transaction) is
  threaded explicitly, while `transaction.atomic` blocks drop their partial
  state on error.

Rows are appended in creation order, so "most recently created" is the last
matching row of the list.
-/

namespace CourseDiscovery


/-- The model classes that take part in the draft/official workflow.
`editor` stands for `CourseEditor` (a reverse foreign key of `Course`) and
`video` for the `Video` rows created by the publication pipeline. -/
inductive Table
  | course
  | courseRun
  | seat
  | entitlement
  | editor
  | video
  deriving DecidableEq, Repr

/-- A value assigned through `setattr` in the `attrs` dictionaries of
`set_draft_state` / `set_official_state`: either a related model object
(identified by its primary key) or a scalar. -/
inductive AttrValue
  | vPk (pk : Nat)
  | vStr (s : String)
  | vNone
  deriving DecidableEq, Repr

def AttrValue.asPk : AttrValue → Option Nat
  | .vPk n => some n
  | _ => none

def AttrValue.asStr : AttrValue → String
  | .vStr s => s
  | .vPk n => toString n
  | .vNone => ""

/-- One database row.  The union of the fields that the translated functions
touch on any of the model classes; fields irrelevant to a given table keep
their defaults.  `active` models the business-defined activeness of a course
run (see `active_course_runs`); `payload` holds the remaining scalar columns
as an association list. -/
structure Row where
  table : Table
  pk : Nat
  draft : Bool := false
  draft_version : Option Nat := none
  course : Option Nat := none
  course_run : Option Nat := none
  canonical_course_run : Option Nat := none
  video : Option Nat := none
  partner : Nat := 0
  key : String := ""
  uuid : Nat := 0
  slug : String := ""
  url_slug : String := ""
  salesforce_id : Option Nat := none
  typeSlug : String := ""
  price : Int := 0
  currency : String := ""
  upgrade_deadline : Option Nat := none
  sku : Option String := none
  active : Bool := false
  payload : List (String × String) := []
  deriving DecidableEq, Repr

/-- The database: the row list (in creation order) together with the
many-to-many join state, keyed by `(table, pk, field name)`. -/
structure DB where
  rows : List Row
  m2m : List ((Table × Nat × String) × List Nat) := []
  deriving DecidableEq, Repr

def pks (db : DB) : List Nat := db.rows.map Row.pk

def maxPk (rows : List Row) : Nat := rows.foldr (fun r m => max r.pk m) 0

/-- The primary key the database hands out for the next insert
(`pk = None` followed by `save()`). -/
def freshPk (db : DB) : Nat := maxPk db.rows + 1

/-- `Model.everything.get(pk=...)`: lookup including drafts. -/
def everythingGet (db : DB) (t : Table) (p : Nat) : Option Row :=
  db.rows.find? fun r => decide (r.table = t ∧ r.pk = p)

/-- `Model.objects.get(pk=...)`: the default manager excludes drafts
(spec §9: "default manager excludes drafts"). -/
def objectsGet (db : DB) (t : Table) (p : Nat) : Option Row :=
  db.rows.find? fun r => decide (r.table = t ∧ r.pk = p ∧ r.draft = false)

/-- `obj.save()`: update in place when a row of the same model and primary key
exists, insert (append) otherwise. -/
def saveRow (db : DB) (row : Row) : DB :=
  if db.rows.any (fun r => decide (r.table = row.table ∧ r.pk = row.pk)) then
    { db with rows := db.rows.map fun r =>
        if decide (r.table = row.table ∧ r.pk = row.pk) then row else r }
  else
    { db with rows := db.rows ++ [row] }

def m2mGet (db : DB) (t : Table) (p : Nat) (f : String) : List Nat :=
  (((db.m2m.find? fun e => decide (e.1 = (t, p, f))).map Prod.snd).getD [])

def m2mWrite (db : DB) (t : Table) (p : Nat) (f : String) (vals : List Nat) : DB :=
  { db with m2m := ((t, p, f), vals) :: db.m2m.filter fun e => decide (e.1 ≠ (t, p, f)) }

/-- `related_manager.set(vals)` (also `clear()` followed by `add(*vals)`:
full-replace semantics). -/
def m2mSet (db : DB) (t : Table) (p : Nat) (f : String) (vals : List Nat) : DB :=
  m2mWrite db t p f vals

/-- `related_manager.add(*vals)`: adds, ignoring values already present. -/
def m2mAdd (db : DB) (t : Table) (p : Nat) (f : String) (vals : List Nat) : DB :=
  m2mWrite db t p f (m2mGet db t p f ++ vals.filter fun v => decide (v ∉ m2mGet db t p f))

/-- Modelled from the spec (§3, data model): the non-auto-created
many-to-many fields of each model that `model._meta.get_fields()` yields
(`models.py` is not part of the excerpt).  Reverse/auto-created relations
such as `url_slug_history` or `editors` are deliberately absent. -/
def m2mFields : Table → List String
  | .course => ["subjects", "authoring_organizations"]
  | .courseRun => ["staff", "transcript_languages"]
  | _ => []

/-- `setattr(obj, key, value)` for the attribute names the translated call
sites use; unrecognised names land in the scalar `payload`. -/
def setAttr (r : Row) (key : String) (v : AttrValue) : Row :=
  if key = "course" then { r with course := v.asPk }
  else if key = "course_run" then { r with course_run := v.asPk }
  else if key = "canonical_course_run" then { r with canonical_course_run := v.asPk }
  else { r with payload := (key, v.asStr) :: r.payload.filter fun e => decide (e.1 ≠ key) }

def applyAttrs (r : Row) (attrs : List (String × AttrValue)) : Row :=
  attrs.foldl (fun r kv => setAttr r kv.1 kv.2) r

/-- Writes one scalar column of the `payload` component. -/
def setPayload (r : Row) (key val : String) : Row :=
  { r with payload := (key, val) :: r.payload.filter fun e => decide (e.1 ≠ key) }

def WF (db : DB) : Prop :=
  (pks db).Nodup ∧
  ∀ r ∈ db.rows, ∀ t, r.draft_version = some t → t ∈ pks db

instance : DecidablePred WF := fun db => by
  unfold WF; infer_instance

/-! ## Related-object queries

Django related managers (`course.course_runs`, `run.seats`,
`course.entitlements`, `course.editors`), modelled from the spec (§6) as
foreign-key filters over the row list ("get including drafts" scope). -/

def courseRunsOf (db : DB) (c : Nat) : List Row :=
  db.rows.filter fun r => decide (r.table = Table.courseRun ∧ r.course = some c)

def seatsOfRun (db : DB) (run : Nat) : List Row :=
  db.rows.filter fun r => decide (r.table = Table.seat ∧ r.course_run = some run)

def entitlementsOf (db : DB) (c : Nat) : List Row :=
  db.rows.filter fun r => decide (r.table = Table.entitlement ∧ r.course = some c)

def editorsOf (db : DB) (c : Nat) : List Row :=
  db.rows.filter fun r => decide (r.table = Table.editor ∧ r.course = some c)

/-- Modelled from the spec (§4.2): `course.active_course_runs`
(`models.py` not in the excerpt) — the business-defined "currently
enrollable/upcoming" runs, represented by a per-run `active` flag. -/
def active_course_runs (db : DB) (c : Nat) : List Row :=
  db.rows.filter fun r =>
    decide (r.table = Table.courseRun ∧ r.course = some c ∧ r.active = true)

/-- Modelled from the spec (§3/§4.1): the `official_version` computed accessor
of `DraftModelMixin` (`models.py` not in the excerpt) — for a draft row, the
official row whose `draft_version` points at it ("look up its existing
official counterpart (if any)"). -/
def official_version (db : DB) (model : Table) (obj : Row) : Option Row :=
  db.rows.find? fun r =>
    decide (r.table = model ∧ r.draft = false ∧ r.draft_version = some obj.pk)

/-- `set_official_state(obj, model, attrs=None)` (utils.py lines 58-105).
The `suppress_publication` save kwarg has no observable effect in this model
(no marketing-node side channel is modelled). -/
def set_official_state (db : DB) (model : Table) (obj : Row)
    (attrs : List (String × AttrValue)) : Option (DB × Row) :=
  if obj.draft then
    let official_obj? := official_version db model obj
    match everythingGet db model obj.pk with
    | none => none
    | some draft_version =>
      let obj := { obj with
        pk := match official_obj? with
          | some o => o.pk
          | none => freshPk db,   -- pk=None: save() below inserts at a fresh key
        draft := false,
        draft_version := some draft_version.pk }
      let obj := if model = Table.course then
          { obj with canonical_course_run :=
              official_obj?.bind Row.canonical_course_run }
        else obj
      let db := saveRow db obj
      -- Copy many-to-many fields manually (clear() then add(*...): full replace).
      let db := (m2mFields model).foldl
        (fun db f => m2mSet db model obj.pk f (m2mGet db model draft_version.pk f)) db
      let official_obj := obj
      if attrs.isEmpty then some (db, official_obj)
      else
        let official_obj := applyAttrs official_obj attrs
        some (saveRow db official_obj, official_obj)
  else
    let official_obj := obj
    if attrs.isEmpty then some (db, official_obj)
    else
      let official_obj := applyAttrs official_obj attrs
      some (saveRow db official_obj, official_obj)

/-- `set_draft_state(obj, model, attrs=None, related_attrs=None)`
(utils.py lines 108-157).  Returns `(db, draft, original)`.  The
`refresh_from_db` step re-reads the inserted row; the externally assigned
`salesforce_id` (a post-save signal outside the excerpt) is modelled as the
value already on the row, and is mirrored onto the original as in the source. -/
def set_draft_state (db : DB) (model : Table) (obj : Row)
    (attrs : List (String × AttrValue))
    (related_attrs : List (String × List Nat)) : Option (DB × Row × Row) :=
  match objectsGet db model obj.pk with
  | none => none
  | some original_obj =>
    let obj := { obj with pk := freshPk db, draft := true }  -- obj.pk = None; insert on save
    let obj := applyAttrs obj attrs
    let db := saveRow db obj
    -- must be done after save so we have an id
    let db := related_attrs.foldl (fun db kv => m2mSet db model obj.pk kv.1 kv.2) db
    let obj := if model = Table.course ∨ model = Table.courseRun then
        (everythingGet db model obj.pk).getD obj  -- obj.refresh_from_db()
      else obj
    let original_obj := if model = Table.course ∨ model = Table.courseRun then
        { original_obj with salesforce_id := obj.salesforce_id }
      else original_obj
    let original_obj := { original_obj with draft_version := some obj.pk }
    let db := saveRow db original_obj
    -- Copy many-to-many fields manually (add(*original's); done after save).
    let db := (m2mFields model).foldl
      (fun db f => m2mAdd db model obj.pk f (m2mGet db model original_obj.pk f)) db
    some (db, obj, original_obj)

/-! ## Entitlement calculator -/

/-- Modelled from the spec (§4.2): `Seat.ENTITLEMENT_MODES` (`models.py` not
in the excerpt) — the fixed allow-list of entitlement-eligible seat types. -/
def ENTITLEMENT_MODES : List String := ["verified", "professional"]

/-- The entitlement-eligible seats of a run (utils.py line 163). -/
def entitlement_seats (db : DB) (run : Row) : List Row :=
  (seatsOfRun db run.pk).filter fun seat => decide (seat.typeSlug ∈ ENTITLEMENT_MODES)

/-- `_calculate_entitlement_for_run(run)` (utils.py lines 160-168). -/
def calculate_entitlement_for_run (db : DB) (run : Row) :
    Option (String × Int × String) :=
  if (entitlement_seats db run).length ≠ 1 then none
  else (entitlement_seats db run).head?.map fun seat =>
    (seat.typeSlug, seat.price, seat.currency)

/-- The candidate-run selection inside `_calculate_entitlement_for_course`
(utils.py lines 181-184): all active runs, or else the single most recently
created run, or else nothing. -/
def candidate_runs (db : DB) (course : Row) : List Row :=
  let runs := active_course_runs db course.pk
  if runs.isEmpty then
    match (courseRunsOf db course.pk).getLast? with
    | some r => [r]
    | none => []
  else runs

/-- `_calculate_entitlement_for_course(course)` (utils.py lines 171-191).
The stale-prefetch-cache refetch of the source (lines 178-179) is translated
literally; in this model a nonempty run list always has a last element, so
the refetch branch is vacuous. -/
def calculate_entitlement_for_course (db : DB) (course : Row) :
    Option (String × Int × String) :=
  let course :=
    if !(courseRunsOf db course.pk).isEmpty && ((courseRunsOf db course.pk).getLast?).isNone
    then (everythingGet db Table.course course.pk).getD course
    else course
  let runs := candidate_runs db course
  if runs.isEmpty then none
  else
    let entitlement_data := (runs.map fun r => calculate_entitlement_for_run db r).dedup
    if 1 < entitlement_data.length then none  -- some runs disagree
    else entitlement_data.head?.join          -- entitlement_data.pop()

/-! ## Ecommerce push -/

/-- Partner configuration and identity, as consumed by the push adapter. -/
structure Partner where
  pk : Nat := 0
  has_lms_api_client : Bool := true
  ecommerce_api_url : Option String := none
  deriving DecidableEq, Repr

/-- The commerce service's reply to the publication POST: HTTP status, the
optional `error` field of the body, and the `partner_sku` of each product of
the body (in response order; `none` for a product without the key). -/
structure EcomResponse where
  status_code : Nat := 200
  error : Option String := none
  products : List (Option String) := []
  deriving DecidableEq, Repr

/-- The exceptions the translated functions can raise. -/
inductive Err
  | EcommerceSiteAPIClientException (error : String)
  | HTTPError (status : Nat)      -- response.raise_for_status()
  | DoesNotExist                  -- ORM lookup failure
  | IntegrityError                -- duplicate URL slug
  | AttributeError                -- publisher image missing when required
  | EnsureDraftWorldException     -- ensure_draft_world on a bad type
  deriving DecidableEq, Repr

deriving instance DecidableEq for Except

/-- Modelled from the spec (§4.4): `Seat.NON_PRODUCT_MODES` (`models.py` not
in the excerpt) — seat types that have no ecommerce product. -/
def NON_PRODUCT_MODES : List String := ["masters"]

def serialize_products (seats entitlements : List Row) : List Row :=
  seats ++ entitlements

/-- The local products submitted to the commerce service, in submission
order: sellable seats (non-product modes excluded) followed by the course's
entitlements (utils.py lines 453-463). -/
def discoveryProducts (db : DB) (course_run course : Row) : List Row :=
  serialize_products
    ((seatsOfRun db course_run.pk).filter fun s =>
      decide (s.typeSlug ∉ NON_PRODUCT_MODES))
    (entitlementsOf db course.pk)

/-- `product.sku = sku` before `product.save()`. -/
def withSku (r : Row) (s : String) : Row := { r with sku := some s }

/-- The SKU write-back loop of `push_to_ecommerce_for_course_run`
(utils.py lines 486-497), over the positionally zipped
`(discovery_product, returned partner_sku)` pairs. -/
def applySkus : DB → List (Row × Option String) → Except Err DB
  | db, [] => .ok db
  | db, (dp, skuOpt) :: rest =>
    match skuOpt with
    | none => applySkus db rest               -- if not sku: continue
    | some sku =>
      if sku = "" then applySkus db rest      -- empty string is falsy too
      else
        let db := saveRow db (withSku dp sku)
        match dp.draft_version with
        | none => applySkus db rest
        | some dpk =>
          match everythingGet db dp.table dpk with
          | none => .error .DoesNotExist
          | some d => applySkus (saveRow db (withSku d sku)) rest

/-- `push_to_ecommerce_for_course_run(course_run)` (utils.py lines 440-499).
The HTTP POST is modelled by taking the service's reply `resp` as an input.
The SKU write-back runs inside `transaction.atomic`, so an exception there
returns the pre-loop state. -/
def push_to_ecommerce_for_course_run (partner : Partner) (resp : EcomResponse)
    (db : DB) (course_run : Row) : DB × Except Err Bool :=
  match course_run.course.bind (everythingGet db Table.course) with
  | none => (db, .error .DoesNotExist)
  | some course =>
    if !partner.has_lms_api_client || partner.ecommerce_api_url.isNone then
      (db, .ok false)
    else
      let discovery_products := discoveryProducts db course_run course
      if discovery_products.isEmpty then (db, .ok false)  -- nothing to do
      else
        if 400 ≤ resp.status_code ∧ resp.status_code < 600 then
          match resp.error with
          | some e =>
            if e ≠ "" then (db, .error (.EcommerceSiteAPIClientException e))
            else (db, .error (.HTTPError resp.status_code))
          | none => (db, .error (.HTTPError resp.status_code))
        else
          let ecommerce_products := resp.products
          if discovery_products.length = ecommerce_products.length then
            match applySkus db (discovery_products.zip ecommerce_products) with
            | .ok db => (db, .ok true)
            | .error e => (db, .error e)  -- transaction.atomic: loop writes rolled back
          else (db, .ok true)

/-- The `CourseEntitlement.objects.create(...)` row of
`create_missing_entitlement` (utils.py lines 206-213). -/
def newEntitlementRow (db : DB) (course : Row) (mode : String) (price : Int)
    (currency : String) : Row :=
  { table := Table.entitlement, pk := freshPk db, course := some course.pk,
    partner := course.partner, typeSlug := mode, price := price,
    currency := currency, draft := course.draft }

/-- `create_missing_entitlement(course)` (utils.py lines 194-224).  The new
`CourseEntitlement` row persists even when the subsequent ecommerce push
raises (there is no enclosing transaction in the source). -/
def create_missing_entitlement (partner : Partner) (resp : EcomResponse)
    (db : DB) (course : Row) : DB × Except Err Bool :=
  match calculate_entitlement_for_course db course with
  | none => (db, .ok false)
  | some (mode, price, currency) =>
    let ent : Row := newEntitlementRow db course mode price currency
    let db := saveRow db ent
    if !course.draft then
      match course.canonical_course_run with
      | none => (db, .ok true)
      | some cpk =>
        match everythingGet db Table.courseRun cpk with
        | none => (db, .error .DoesNotExist)
        | some crun =>
          match push_to_ecommerce_for_course_run partner resp db crun with
          | (db, .ok _) => (db, .ok true)
          | (db, .error e) => (db, .error e)
    else (db, .ok true)

/-! ## ensure_draft_world (utils.py lines 227-286)

The Course branch of the source function is translated as the helpers below
(seat loop, run loop, entitlement loop), composed in source order.  Failures
(`DoesNotExist` from the internal `get` calls) propagate; there is no
enclosing transaction in the source, so the state reached so far is kept. -/

/-- The seat loop of the Course branch (utils.py lines 271-272). -/
def draftSeats (db : DB) (draft_run_pk : Nat) : List Row → DB × Except Err Unit
  | [] => (db, .ok ())
  | seat :: rest =>
    match set_draft_state db Table.seat seat [("course_run", .vPk draft_run_pk)] [] with
    | none => (db, .error .DoesNotExist)
    | some (db, _, _) => draftSeats db draft_run_pk rest

/-- The run loop of the Course branch (utils.py lines 266-274): draft each
run, re-parent it to the draft course, draft its seats, and remember the
draft counterpart of the canonical run. -/
def draftRuns (original_course : Row) :
    DB → Row → List Row → DB × Except Err Row
  | db, draft_course, [] => (db, .ok draft_course)
  | db, draft_course, run :: rest =>
    match set_draft_state db Table.courseRun run
        [("course", .vPk draft_course.pk)] [] with
    | none => (db, .error .DoesNotExist)
    | some (db, draft_run, original_run) =>
      let draft_run := { draft_run with slug := original_run.slug }
      let db := saveRow db draft_run
      match draftSeats db draft_run.pk (seatsOfRun db original_run.pk) with
      | (db, .error e) => (db, .error e)
      | (db, .ok ()) =>
        match original_course.canonical_course_run with
        | none => draftRuns original_course db draft_course rest
        | some cpk =>
          match everythingGet db Table.courseRun cpk with
          | none => (db, .error .DoesNotExist)
          | some canonical_run =>
            let draft_course :=
              if draft_run.uuid = canonical_run.uuid then
                { draft_course with canonical_course_run := some draft_run.pk }
              else draft_course
            draftRuns original_course db draft_course rest

/-- The entitlement loop of the Course branch (utils.py lines 277-278). -/
def draftEntitlements (db : DB) (draft_course_pk : Nat) :
    List Row → DB × Except Err Unit
  | [] => (db, .ok ())
  | ent :: rest =>
    match set_draft_state db Table.entitlement ent
        [("course", .vPk draft_course_pk)] [] with
    | none => (db, .error .DoesNotExist)
    | some (db, _, _) => draftEntitlements db draft_course_pk rest

/-- The Course branch of `ensure_draft_world` (utils.py lines 252-284). -/
def draftCourseWorld (partner : Partner) (resp : EcomResponse)
    (db : DB) (obj : Row) : DB × Except Err Row :=
  -- Null out to avoid the OneToOne uniqueness error when saving the draft.
  let obj := { obj with canonical_course_run := none }
  match set_draft_state db Table.course obj [] [("url_slug_history", [])] with
  | none => (db, .error .DoesNotExist)
  | some (db, draft_course, original_course) =>
    let draft_course := { draft_course with slug := original_course.slug }
    -- Move editors from the original course to the draft course.
    let db := (editorsOf db original_course.pk).foldl
      (fun db ed => saveRow db { ed with course := some draft_course.pk }) db
    match draftRuns original_course db draft_course
        (courseRunsOf db original_course.pk) with
    | (db, .error e) => (db, .error e)
    | (db, .ok draft_course) =>
      let (db, entRes) :=
        if !(entitlementsOf db original_course.pk).isEmpty then
          draftEntitlements db draft_course.pk (entitlementsOf db original_course.pk)
        else
          match create_missing_entitlement partner resp db draft_course with
          | (db, .ok _) => (db, .ok ())
          | (db, .error e) => (db, .error e)
      match entRes with
      | .error e => (db, .error e)
      | .ok () =>
        let db := saveRow db draft_course
        -- must re-get from db so related fields are updated
        match everythingGet db Table.course draft_course.pk with
        | none => (db, .error .DoesNotExist)
        | some c => (db, .ok c)

/-- `ensure_draft_world(obj)` (utils.py lines 227-286).  The recursive call
of the CourseRun branch on `obj.course` is inlined (a Course argument never
recurses further). -/
def ensure_draft_world (partner : Partner) (resp : EcomResponse)
    (db : DB) (obj : Row) : DB × Except Err Row :=
  if obj.draft then (db, .ok obj)
  else
    match obj.draft_version with
    | some dv =>
      match everythingGet db obj.table dv with
      | some d => (db, .ok d)
      | none => (db, .error .DoesNotExist)
    | none =>
      match obj.table with
      | Table.courseRun =>
        (match obj.course.bind (everythingGet db Table.course) with
         | none => (db, .error .DoesNotExist)
         | some course =>
           let (db, res) :=
             if course.draft then (db, .ok course)
             else
               match course.draft_version with
               | some dv =>
                 (match everythingGet db Table.course dv with
                  | some d => (db, .ok d)
                  | none => (db, .error .DoesNotExist))
               | none => draftCourseWorld partner resp db course
           match res with
           | .error e => (db, .error e)
           | .ok _ =>
             match db.rows.find? (fun r =>
                 decide (r.table = Table.courseRun ∧ r.key = obj.key ∧ r.draft = true)) with
             | some run => (db, .ok run)
             | none => (db, .error .DoesNotExist))
      | Table.course => draftCourseWorld partner resp db obj
      | _ => (db, .error .EnsureDraftWorldException)

/-! ## Publication pipeline (utils.py lines 552-695)

The upstream editorial records (the `publisher` app, whose models are not in
the excerpt) are modelled from the spec as plain input structures carrying
exactly the fields the pipeline reads. -/

/-- `Seat.CREDIT` (the seat type this pipeline does not manage). -/
def CREDIT : String := "credit"

/-- `Seat.MASTERS` (the type of the synthesized parallel seat). -/
def MASTERS : String := "masters"

/-- Modelled from the spec (§4.3): a publisher seat — type, price, currency,
the `masters_track` flag, creation order, and the derived upgrade deadline. -/
structure PubSeat where
  typeSlug : String
  price : Int := 0
  currency : String := "USD"
  masters_track : Bool := false
  created : Nat := 0
  calculated_upgrade_deadline : Option Nat := none
  deriving DecidableEq, Repr

/-- Modelled from the spec (§4.3): a publisher entitlement. -/
structure PubEntitlement where
  mode : String
  price : Int := 0
  currency : String := "USD"
  deriving DecidableEq, Repr

/-- Modelled from the spec (§4.3): the publisher course record. -/
structure PubCourse where
  key : String := ""
  title : String := ""
  short_description : String := ""
  full_description : String := ""
  level_type : String := ""
  expected_learnings : String := ""
  prerequisites : String := ""
  syllabus : String := ""
  additional_information : String := ""
  faq : String := ""
  learner_testimonial : String := ""
  video_link : Option String := none
  image : Option String := none
  organizations : List Nat := []
  primary_subject : Option Nat := none
  secondary_subject : Option Nat := none
  tertiary_subject : Option Nat := none
  entitlements : List PubEntitlement := []
  url_slug : String := ""
  deriving DecidableEq, Repr

/-- Modelled from the spec (§4.3): the publisher course run being published.
`expected_program_type` / `expected_program_name` stand for the result of
`ProgramType.get_program_type_data` (not in the excerpt). -/
structure PubCourseRun where
  course : PubCourse
  lms_course_id : String := ""
  start_date_temporary : String := ""
  end_date_temporary : String := ""
  pacing_type_temporary : String := ""
  title_override : String := ""
  min_effort : String := ""
  max_effort : String := ""
  language : String := ""
  length : String := ""
  has_ofac_restrictions : String := ""
  external_key : String := ""
  expected_program_type : String := ""
  expected_program_name : String := ""
  seats : List PubSeat := []
  staff : List Nat := []
  transcript_languages : List Nat := []
  deriving DecidableEq, Repr

/-- Modelled from the spec (§4.3): `find_discovery_course` (publisher utils,
not in the excerpt) resolves the catalog course matching the publisher
course-run, via the run's learning-platform identifier. -/
def find_discovery_course (db : DB) (pcr : PubCourseRun) : Option Row :=
  (db.rows.find? fun r =>
      decide (r.table = Table.courseRun ∧ r.key = pcr.lms_course_id)).bind
    fun run => run.course.bind (everythingGet db Table.course)

/-- `OrderedDict.fromkeys`: deduplication preserving first-seen order. -/
def dedupFirstAux : List Nat → List Nat → List Nat
  | _, [] => []
  | seen, x :: xs =>
    if x ∈ seen then dedupFirstAux seen xs
    else x :: dedupFirstAux (x :: seen) xs

def dedupFirst (l : List Nat) : List Nat := dedupFirstAux [] l

/-- `.order_by('created')` over publisher seats (insertion sort;
ties keep their relative order). -/
def insertByCreated (s : PubSeat) : List PubSeat → List PubSeat
  | [] => [s]
  | t :: ts => if s.created < t.created then s :: t :: ts else t :: insertByCreated s ts

def sortByCreated (l : List PubSeat) : List PubSeat := l.foldr insertByCreated []

/-- `Course.everything.update_or_create(partner=..., key=..., draft=True,
defaults=...)`: update the matching draft course or insert a fresh one.
A freshly created course receives its key as `uuid` (Django generates a
random UUID; the fresh primary key serves as a unique stand-in). -/
def update_or_create_course (db : DB) (partner_pk : Nat) (key : String)
    (defaults : Row → Row) : DB × Row × Bool :=
  match db.rows.find? (fun r =>
      decide (r.table = Table.course ∧ r.partner = partner_pk ∧
              r.key = key ∧ r.draft = true)) with
  | some c => let c := defaults c; (saveRow db c, c, false)
  | none =>
    let c := defaults { table := Table.course, pk := freshPk db,
                        partner := partner_pk, key := key, draft := true,
                        uuid := freshPk db }
    (saveRow db c, c, true)

/-- `CourseRun.everything.update_or_create(key=..., draft=True, defaults=...)`. -/
def update_or_create_run (db : DB) (key : String) (defaults : Row → Row) :
    DB × Row :=
  match db.rows.find? (fun r =>
      decide (r.table = Table.courseRun ∧ r.key = key ∧ r.draft = true)) with
  | some r => let r := defaults r; (saveRow db r, r)
  | none =>
    let r := defaults { table := Table.courseRun, pk := freshPk db, key := key,
                        draft := true, uuid := freshPk db }
    (saveRow db r, r)

/-- `CourseEntitlement.everything.update_or_create(course=..., draft=True,
defaults=...)` — note the source keys this upsert on the course alone. -/
def update_or_create_entitlement (db : DB) (course_pk : Nat)
    (defaults : Row → Row) : DB :=
  match db.rows.find? (fun r =>
      decide (r.table = Table.entitlement ∧ r.course = some course_pk ∧
              r.draft = true)) with
  | some e => saveRow db (defaults e)
  | none =>
    saveRow db (defaults { table := Table.entitlement, pk := freshPk db,
                           course := some course_pk, draft := true })

/-- The upsert key of the publication seat loop: one draft seat row per
`(course_run, type, currency)`. -/
def seatKey (run_pk : Nat) (t currency : String) : Row → Bool := fun r =>
  decide (r.table = Table.seat ∧ r.course_run = some run_pk ∧
          r.typeSlug = t ∧ r.currency = currency ∧ r.draft = true)

/-- `Seat.everything.update_or_create(course_run=..., type=..., currency=...,
draft=True, defaults={price, upgrade_deadline})`. -/
def update_or_create_seat (db : DB) (run_pk : Nat) (t currency : String)
    (price : Int) (deadline : Option Nat) : DB :=
  match db.rows.find? (seatKey run_pk t currency) with
  | some st => saveRow db { st with price := price, upgrade_deadline := deadline }
  | none =>
    saveRow db { table := Table.seat, pk := freshPk db,
                 course_run := some run_pk, typeSlug := t, currency := currency,
                 draft := true, price := price, upgrade_deadline := deadline }

/-- Modelled from the spec (§4.3): `Course.set_active_url_slug` (`models.py`
not in the excerpt).  Sets the course's public URL slug; raises
`IntegrityError` when a different course (different `uuid`, so a course's own
draft/official pair never conflicts with itself) already holds the slug. -/
def set_active_url_slug (db : DB) (course : Row) (slug : String) :
    Except Err (DB × Row) :=
  if db.rows.any (fun r =>
      decide (r.table = Table.course ∧ r.uuid ≠ course.uuid ∧ r.url_slug = slug)) then
    .error .IntegrityError
  else
    let course := { course with url_slug := slug }
    .ok (saveRow db course, course)

/-- Modelled from the spec (§4.3): `CourseRun.update_or_create_official_version`
(`models.py` not in the excerpt) — "(re)derives the official versions of the
whole tree via `set_official_state`-based promotion", without the commerce
notification. -/
def update_or_create_official_version (db : DB) (run : Row) : Option DB :=
  match run.course.bind (everythingGet db Table.course) with
  | none => none
  | some course =>
    match set_official_state db Table.course course [] with
    | none => none
    | some (db, official_course) =>
      match set_official_state db Table.courseRun run
          [("course", .vPk official_course.pk)] with
      | none => none
      | some (db, official_run) =>
        match (seatsOfRun db run.pk).foldlM (fun db s =>
            (set_official_state db Table.seat s
              [("course_run", .vPk official_run.pk)]).map Prod.fst) db with
        | none => none
        | some db =>
          ((entitlementsOf db course.pk).foldlM (fun db e =>
            (set_official_state db Table.entitlement e
              [("course", .vPk official_course.pk)]).map Prod.fst) db)

/-- The course/run/entitlement upsert prefix of `publish_to_course_metadata`
(utils.py lines 566-656), up to but excluding the URL-slug step.  Returns the
updated database, the draft course, the draft run, and the `created` flag.
The whole pipeline runs in `transaction.atomic`, so errors carry no state. -/
def publishUpsertPhase (partner : Partner) (resp : EcomResponse)
    (db : DB) (pcr : PubCourseRun) (create_official : Bool) :
    Except Err (DB × Row × Row × Bool) :=
  let pc := pcr.course
  -- Video.objects.get_or_create(src=video_link)
  let (db, video) : DB × Option Nat :=
    match pc.video_link with
    | none => (db, none)
    | some src =>
      match db.rows.find? (fun r => decide (r.table = Table.video ∧ r.key = src)) with
      | some v => (db, some v.pk)
      | none =>
        let v : Row := { table := Table.video, pk := freshPk db, key := src }
        (saveRow db v, some v.pk)
  let discovery_course? := find_discovery_course db pcr
  let course_key := match discovery_course? with
    | some c => c.key
    | none => pc.key
  match (match discovery_course? with
         | some c =>
           (match ensure_draft_world partner resp db c with
            | (db, .ok _) => Except.ok db
            | (_, .error e) => Except.error e)   -- atomic: roll back
         | none => Except.ok db) with
  | .error e => .error e
  | .ok db =>
    let defaultsFn : Row → Row := fun c =>
      let c := { c with video := video }
      let c := setPayload c "title" pc.title
      let c := setPayload c "short_description" pc.short_description
      let c := setPayload c "full_description" pc.full_description
      let c := setPayload c "level_type" pc.level_type
      let c := setPayload c "outcome" pc.expected_learnings
      let c := setPayload c "prerequisites_raw" pc.prerequisites
      let c := setPayload c "syllabus_raw" pc.syllabus
      let c := setPayload c "additional_information" pc.additional_information
      let c := setPayload c "faq" pc.faq
      let c := setPayload c "learner_testimonials" pc.learner_testimonial
      match discovery_course? with
      | some dc => { c with uuid := dc.uuid }  -- sanity: UUIDs must match
      | none => c
    let (db, discovery_course, created) :=
      update_or_create_course db partner.pk course_key defaultsFn
    -- image is required when publishing from the Publisher app
    match (if create_official || pc.image.isSome then
             match pc.image with
             | some img => Except.ok (some img)
             | none => Except.error Err.AttributeError
           else Except.ok none) with
    | .error e => .error e
    | .ok image? =>
      let (db, discovery_course) : DB × Row :=
        match image? with
        | some img =>
          let c := setPayload discovery_course "image" img
          (saveRow db c, c)
        | none => (db, discovery_course)
      let db := m2mAdd db Table.course discovery_course.pk
        "authoring_organizations" pc.organizations
      let subjects := dedupFirst
        (([pc.primary_subject, pc.secondary_subject, pc.tertiary_subject]).filterMap id)
      let db := m2mSet db Table.course discovery_course.pk "subjects" subjects
      let discovery_official_course_run := db.rows.find? fun r =>
        decide (r.table = Table.courseRun ∧ r.key = pcr.lms_course_id ∧ r.draft = false)
      let runDefaultsFn : Row → Row := fun r =>
        let r := { r with course := some discovery_course.pk }
        let r := setPayload r "start" pcr.start_date_temporary
        let r := setPayload r "end" pcr.end_date_temporary
        let r := setPayload r "pacing_type" pcr.pacing_type_temporary
        let r := setPayload r "title_override" pcr.title_override
        let r := setPayload r "min_effort" pcr.min_effort
        let r := setPayload r "max_effort" pcr.max_effort
        let r := setPayload r "language" pcr.language
        let r := setPayload r "weeks_to_complete" pcr.length
        let r := setPayload r "has_ofac_restrictions" pcr.has_ofac_restrictions
        let r := setPayload r "external_key" pcr.external_key
        let r := setPayload r "expected_program_name" pcr.expected_program_name
        let r := setPayload r "expected_program_type" pcr.expected_program_type
        match discovery_official_course_run with
        | some official => { r with uuid := official.uuid }
        | none => r
      let (db, discovery_course_run) :=
        update_or_create_run db pcr.lms_course_id runDefaultsFn
      let db := m2mAdd db Table.courseRun discovery_course_run.pk
        "transcript_languages" pcr.transcript_languages
      let db := m2mSet db Table.courseRun discovery_course_run.pk "staff" pcr.staff
      -- Ensure draft and official runs are linked.
      let db :=
        match discovery_official_course_run with
        | some official =>
          if official.draft_version.isNone then
            saveRow db { official with draft_version := some discovery_course_run.pk }
          else db
        | none => db
      let db := pc.entitlements.foldl (fun db e =>
        update_or_create_entitlement db discovery_course.pk fun row =>
          { row with typeSlug := e.mode, partner := partner.pk,
                     price := e.price, currency := e.currency }) db
      .ok (db, discovery_course, discovery_course_run, created)

/-- The `try/except IntegrityError` around `set_active_url_slug`
(utils.py lines 658-662). -/
def slugStep (db : DB) (course : Row) (slug : String) (fail_on_url_slug : Bool) :
    Except Err (DB × Row) :=
  match set_active_url_slug db course slug with
  | .ok (db, course) => .ok (db, course)
  | .error .IntegrityError =>
    if fail_on_url_slug then .error .IntegrityError else .ok (db, course)
  | .error e => .error e

/-- The seat upserts for one publisher seat, including the Masters synthesis
(utils.py lines 664-685). -/
def upsertSeatStep (run_pk : Nat) (db : DB) (s : PubSeat) : DB :=
  let db := update_or_create_seat db run_pk s.typeSlug s.currency s.price
    s.calculated_upgrade_deadline
  if s.masters_track then
    update_or_create_seat db run_pk MASTERS s.currency s.price
      s.calculated_upgrade_deadline
  else db

/-- The publisher seats this pipeline processes: all but credit seats,
ordered by creation time. -/
def processedSeats (pcr : PubCourseRun) : List PubSeat :=
  sortByCreated (pcr.seats.filter fun s => decide (s.typeSlug ≠ CREDIT))

/-- The tail of `publish_to_course_metadata` after the URL-slug step
(utils.py lines 664-695): seat upserts, canonical-run assignment, and the
optional promotion to official. -/
def publishSeatsPhase (db : DB) (discovery_course discovery_course_run : Row)
    (created : Bool) (pcr : PubCourseRun) (create_official : Bool) :
    Except Err DB :=
  let db := (processedSeats pcr).foldl (upsertSeatStep discovery_course_run.pk) db
  let db :=
    if created then
      saveRow db { discovery_course with
        canonical_course_run := some discovery_course_run.pk }
    else db
  if create_official then
    match update_or_create_official_version db discovery_course_run with
    | some db => .ok db
    | none => .error .DoesNotExist
  else .ok db

/-- `publish_to_course_metadata(partner, course_run, create_official=True,
fail_on_url_slug=True)` (utils.py lines 552-695).  `@transaction.atomic`:
an error rolls the whole call back, so errors carry no database state. -/
def publish_to_course_metadata (partner : Partner) (resp : EcomResponse)
    (db : DB) (pcr : PubCourseRun)
    (create_official fail_on_url_slug : Bool) : Except Err DB :=
  match publishUpsertPhase partner resp db pcr create_official with
  | .error e => .error e
  | .ok (db, discovery_course, discovery_course_run, created) =>
    match slugStep db discovery_course pcr.course.url_slug fail_on_url_slug with
    | .error e => .error e
    | .ok (db, discovery_course) =>
      publishSeatsPhase db discovery_course discovery_course_run created pcr
        create_official

def c4seat : Row :=
  { table := Table.seat, pk := 3, course_run := some 2,
    typeSlug := "verified", price := 49, currency := "USD" }

def c4db : DB :=
  { rows := [c4seat,
             { table := Table.seat, pk := 4, course_run := some 2,
               typeSlug := "audit", price := 0, currency := "USD" }] }

def c4run : Row := { table := Table.courseRun, pk := 2 }

def c6run1 : Row :=
  { table := Table.courseRun, pk := 2, course := some 1, active := true }

def c6run2 : Row :=
  { table := Table.courseRun, pk := 3, course := some 1, active := false }

def c6db : DB :=
  { rows := [{ table := Table.course, pk := 1 }, c6run1, c6run2] }

def c6course : Row := { table := Table.course, pk := 1 }

def c5course : Row := { table := Table.course, pk := 1, partner := 7 }

def c5run1 : Row :=
  { table := Table.courseRun, pk := 2, course := some 1, active := true }

def c5run2 : Row :=
  { table := Table.courseRun, pk := 3, course := some 1, active := true }

def c5seatA : Row :=
  { table := Table.seat, pk := 4, course_run := some 2, typeSlug := "verified",
    price := 10, currency := "USD" }

def c5seatHi : Row :=
  { table := Table.seat, pk := 5, course_run := some 3, typeSlug := "verified",
    price := 20, currency := "USD" }

def c5seatLo : Row :=
  { table := Table.seat, pk := 5, course_run := some 3, typeSlug := "verified",
    price := 10, currency := "USD" }

def c5dbDis : DB := { rows := [c5course, c5run1, c5run2, c5seatA, c5seatHi] }

def c5dbAgr : DB := { rows := [c5course, c5run1, c5run2, c5seatA, c5seatLo] }

def c5partner : Partner := { pk := 7 }

/-! ## The ecommerce SKU write-back loop -/

/-- The primary keys the SKU loop may write: each submitted product and its
draft counterpart. -/
def skuTargets (pairs : List (Row × Option String)) : List Nat :=
  (pairs.map fun pr => pr.1.pk) ++ (pairs.filterMap fun pr => pr.1.draft_version)

def c9run : Row := { table := Table.courseRun, pk := 2, course := some 1 }

def c9db : DB :=
  { rows := [{ table := Table.course, pk := 1 },
             c9run,
             { table := Table.seat, pk := 3, course_run := some 2,
               typeSlug := "verified", price := 49, currency := "USD" }] }

def c9partner : Partner := { pk := 7, ecommerce_api_url := some "u" }

def c3course : Row := { table := Table.course, pk := 1 }

def c3run : Row := { table := Table.courseRun, pk := 2, course := some 1 }

def c3seat : Row :=
  { table := Table.seat, pk := 3, course_run := some 2, typeSlug := "verified",
    price := 49, currency := "USD", draft_version := some 4 }

def c3draftSeat : Row :=
  { table := Table.seat, pk := 4, course_run := some 6, typeSlug := "verified",
    price := 49, currency := "USD", draft := true }

def c3ent : Row :=
  { table := Table.entitlement, pk := 5, course := some 1,
    typeSlug := "verified", price := 49, currency := "USD" }

def c3db : DB := { rows := [c3course, c3run, c3seat, c3draftSeat, c3ent] }

def c3resp : EcomResponse := { products := [some "SA", some "SB"] }

def c10respShort : EcomResponse := { products := [some "SA"] }

def c10respMixed : EcomResponse := { products := [none, some "SB"] }

/-! ## The effect of set_draft_state -/

/-- The draft row `set_draft_state` produces. -/
def sdsDraft (db : DB) (obj : Row) (attrs : List (String × AttrValue)) : Row :=
  applyAttrs { obj with pk := freshPk db, draft := true } attrs

/-- The mutated original `set_draft_state` leaves behind. -/
def sdsOrig (db : DB) (model : Table) (obj orig : Row)
    (attrs : List (String × AttrValue)) : Row :=
  if model = Table.course ∨ model = Table.courseRun then
    { orig with salesforce_id := (sdsDraft db obj attrs).salesforce_id,
                draft_version := some (freshPk db) }
  else { orig with draft_version := some (freshPk db) }

def c1obj : Row := { table := Table.course, pk := 1, slug := "demo-course" }

def c1db : DB := { rows := [c1obj] }

def c8partner : Partner := { pk := 7 }

def c8conflict : Row :=
  { table := Table.course, pk := 9, uuid := 99, url_slug := "taken-slug" }

def c8db : DB := { rows := [c8conflict] }

def c8pc : PubCourse :=
  { key := "edX+C8", title := "T", url_slug := "taken-slug", image := some "img" }

def c8pcr : PubCourseRun :=
  { course := c8pc, lms_course_id := "course-v1:edX+C8+1",
    seats := [{ typeSlug := "verified", price := 10, masters_track := true,
                created := 0 }] }

/-- The value of the upsert phase on the C8 example. -/
def c8res : DB × Row × Row × Bool :=
  match publishUpsertPhase c8partner {} c8db c8pcr false with
  | .ok v => v
  | .error _ => ({ rows := [] }, { table := Table.course, pk := 0 },
      { table := Table.course, pk := 0 }, false)

/-! ## C7: masters seat synthesis -/

/-- Some row (draft or official) of model `t` occupies primary key `p`. -/
def RowAt (db : DB) (t : Table) (p : Nat) : Prop :=
  ∃ r ∈ db.rows, r.table = t ∧ r.pk = p

/-- An official (non-draft) row of model `t` occupies primary key `p`. -/
def Slot (db : DB) (t : Table) (p : Nat) : Prop :=
  ∃ r ∈ db.rows, r.table = t ∧ r.pk = p ∧ r.draft = false

/-- Every row at primary key `p` is official. -/
def OfficialAt (db : DB) (p : Nat) : Prop :=
  ∀ r ∈ db.rows, r.pk = p → r.draft = false

instance (db : DB) (t : Table) (p : Nat) : Decidable (RowAt db t p) := by
  unfold RowAt
  infer_instance

/-- The two `find?` facts the masters synthesis establishes for one publisher
seat: the first draft seat under the seat's own key and under the Masters key
both carry its price. -/
def seatInv (db : DB) (run_pk : Nat) (s : PubSeat) : Prop :=
  (∃ r, db.rows.find? (seatKey run_pk s.typeSlug s.currency) = some r ∧
      r.price = s.price) ∧
  (∃ r, db.rows.find? (seatKey run_pk MASTERS s.currency) = some r ∧
      r.price = s.price)

/-- Key-disjointness of another processed seat from `s`: its upserts touch
neither of the two keys `s` establishes. -/
def SeatDisj (s2 s : PubSeat) : Prop :=
  (s2.typeSlug ≠ s.typeSlug ∨ s2.currency ≠ s.currency) ∧
  (s2.typeSlug ≠ MASTERS ∨ s2.currency ≠ s.currency) ∧
  (s2.masters_track = true → s2.currency ≠ s.currency)

instance (s2 s : PubSeat) : Decidable (SeatDisj s2 s) := by
  unfold SeatDisj
  infer_instance

def c7partner : Partner := { pk := 7 }

def c7seatA : PubSeat :=
  { typeSlug := "verified", price := 10, currency := "USD",
    masters_track := true, created := 0 }

def c7seatB : PubSeat :=
  { typeSlug := "verified", price := 20, currency := "USD", created := 1 }

def c7pcr : PubCourseRun :=
  { course := { key := "K" }, lms_course_id := "run-1",
    seats := [c7seatA, c7seatB] }

def c7seatM : PubSeat := { typeSlug := "masters", masters_track := true }

def c7pcrM : PubCourseRun :=
  { course := { key := "K" }, lms_course_id := "run-1", seats := [c7seatM] }

/-- The final state of publishing `c7pcr` into an empty database. -/
def c7res : DB :=
  match publish_to_course_metadata c7partner {} { rows := [] } c7pcr false false with
  | .ok v => v
  | .error _ => { rows := [] }

/-- The final state of publishing `c7pcrM` into an empty database. -/
def c7resM : DB :=
  match publish_to_course_metadata c7partner {} { rows := [] } c7pcrM false false with
  | .ok v => v
  | .error _ => { rows := [] }

def c7wseat : PubSeat :=
  { typeSlug := "verified", price := 49, currency := "USD", masters_track := true }

def c7wpcr : PubCourseRun :=
  { course := { key := "K", image := some "img" }, lms_course_id := "run-1",
    seats := [c7wseat] }

/-- The value of the upsert phase on the C7 witness example. -/
def c7wU : DB × Row × Row × Bool :=
  match publishUpsertPhase c7partner {} { rows := [] } c7wpcr true with
  | .ok v => v
  | .error _ => ({ rows := [] }, { table := Table.course, pk := 0 },
      { table := Table.course, pk := 0 }, false)

/-- The value of the slug step on the C7 witness example. -/
def c7wS : DB × Row :=
  match slugStep c7wU.1 c7wU.2.1 c7wpcr.course.url_slug true with
  | .ok v => v
  | .error _ => ({ rows := [] }, { table := Table.course, pk := 0 })

/-- The final state of the C7 witness publication. -/
def c7wF : DB :=
  match publish_to_course_metadata c7partner {} { rows := [] } c7wpcr true true with
  | .ok v => v
  | .error _ => { rows := [] }

/-! ## C2: idempotence of ensure_draft_world -/

/-- The lookup key of the default manager: model, primary key, official. -/
def objKey (t : Table) (p : Nat) : Row → Bool := fun r =>
  decide (r.table = t ∧ r.pk = p ∧ r.draft = false)

def c2partner : Partner := { pk := 7 }

def c2course : Row := { table := Table.course, pk := 1, partner := 7, slug := "c" }

def c2run : Row :=
  { table := Table.courseRun, pk := 2, course := some 1, key := "run-1",
    active := true }

def c2seat : Row :=
  { table := Table.seat, pk := 3, course_run := some 2, typeSlug := "verified",
    price := 10, currency := "USD" }

def c2db : DB := { rows := [c2course, c2run, c2seat] }

/-- The result of the first `ensure_draft_world` call on the C2 example. -/
def c2res : DB × Except Err Row := ensure_draft_world c2partner {} c2db c2course

def c2db1 : DB := c2res.1

def c2d : Row :=
  match c2res.2 with
  | .ok r => r
  | .error _ => { table := Table.course, pk := 0 }

def c2off : Row :=
  { table := Table.course, pk := 8, draft := false, draft_version := some 9 }

def c2draft : Row := { table := Table.course, pk := 9, draft := true }

def c2dbL : DB := { rows := [c2off, c2draft] }

/-! ## Theorems -/

/-! ## Basic lemmas about the database model -/

theorem le_maxPk_of_mem {rows : List Row} {r : Row} (h : r ∈ rows) :
    r.pk ≤ maxPk rows := by
  induction rows with
  | nil => cases h
  | cons a l ih =>
    rcases List.mem_cons.mp h with rfl | h
    · exact Nat.le_max_left _ _
    · exact Nat.le_trans (ih h) (Nat.le_max_right _ _)

theorem pk_lt_freshPk_of_mem {db : DB} {r : Row} (h : r ∈ db.rows) :
    r.pk < freshPk db :=
  Nat.lt_succ_of_le (le_maxPk_of_mem h)

theorem find?_mem_of_eq_some {l : List α} {p : α → Bool} {a : α}
    (h : l.find? p = some a) : a ∈ l ∧ p a = true :=
  ⟨List.mem_of_find?_eq_some h, List.find?_some h⟩

theorem find?_append_single (l : List α) (x : α) (p : α → Bool) :
    (l ++ [x]).find? p = ((l.find? p).or (if p x then some x else none)) := by
  induction l with
  | nil =>
    by_cases h : p x <;> simp [List.find?, h]
  | cons a l ih =>
    by_cases h : p a
    · simp [List.find?, h, Option.or]
    · simp only [List.cons_append, List.find?_cons_of_neg _ (by simpa using h)]
      exact ih

theorem saveRow_insert {db : DB} {row : Row}
    (h : ∀ r ∈ db.rows, ¬(r.table = row.table ∧ r.pk = row.pk)) :
    saveRow db row = { db with rows := db.rows ++ [row] } := by
  have hany : (db.rows.any fun r => decide (r.table = row.table ∧ r.pk = row.pk)) = false := by
    rw [List.any_eq_false]
    intro r hr
    simpa using h r hr
  unfold saveRow
  rw [hany]
  simp

theorem saveRow_fresh {db : DB} {row : Row} (h : row.pk = freshPk db) :
    saveRow db row = { db with rows := db.rows ++ [row] } :=
  saveRow_insert fun _ hr hc =>
    absurd (hc.2.trans h) (Nat.ne_of_lt (pk_lt_freshPk_of_mem hr))

theorem everythingGet_append {db : DB} {row : Row} {t : Table} {p : Nat}
    (h : row.pk ≠ p) :
    everythingGet { db with rows := db.rows ++ [row] } t p = everythingGet db t p := by
  unfold everythingGet
  rw [find?_append_single]
  have hx : (decide (row.table = t ∧ row.pk = p)) = false := by
    simp only [decide_eq_false_iff_not]
    exact fun hc => h hc.2
  rw [hx]
  simp

theorem everythingGet_mem {db : DB} {t : Table} {p : Nat} {r : Row}
    (h : everythingGet db t p = some r) : r ∈ db.rows ∧ r.table = t ∧ r.pk = p := by
  obtain ⟨hm, hp⟩ := find?_mem_of_eq_some h
  simp only [decide_eq_true_eq] at hp
  exact ⟨hm, hp⟩

/-! ## C4: per-run entitlement calculation -/

/-- **C4.** For every course run, `_calculate_entitlement_for_run` returns the
(mode, price, currency) triple of the run's unique entitlement-eligible seat
when exactly one seat of the run has an entitlement-eligible type, and returns
nothing when the run has zero or more than one such seat. -/
theorem claim_C4 (db : DB) (run : Row) :
    (∀ seat, entitlement_seats db run = [seat] →
      calculate_entitlement_for_run db run =
        some (seat.typeSlug, seat.price, seat.currency)) ∧
    ((entitlement_seats db run).length ≠ 1 →
      calculate_entitlement_for_run db run = none) := by
  constructor
  · intro seat hseat
    unfold calculate_entitlement_for_run
    rw [hseat]
    simp
  · intro h
    unfold calculate_entitlement_for_run
    rw [if_pos h]

theorem claim_C4_witness :
    (entitlement_seats c4db c4run = [c4seat] ∧
     calculate_entitlement_for_run c4db c4run = some ("verified", 49, "USD")) ∧
    ((entitlement_seats { rows := [] } c4run).length ≠ 1 ∧
     calculate_entitlement_for_run { rows := [] } c4run = none) :=
  ⟨⟨by decide, (claim_C4 c4db c4run).1 c4seat (by decide)⟩,
   ⟨by decide, (claim_C4 { rows := [] } c4run).2 (by decide)⟩⟩

/-! ## C6: candidate-run selection -/

theorem active_sub_courseRuns {db : DB} {c : Nat} {r : Row}
    (h : r ∈ active_course_runs db c) : r ∈ courseRunsOf db c := by
  unfold active_course_runs at h
  unfold courseRunsOf
  obtain ⟨hm, hp⟩ := List.mem_filter.mp h
  simp only [decide_eq_true_eq] at hp
  exact List.mem_filter.mpr ⟨hm, by simp [hp.1, hp.2.1]⟩

/-- The stale-prefetch refetch of `_calculate_entitlement_for_course` never
fires in this model: a nonempty run list always has a last element. -/
theorem calc_course_eq (db : DB) (course : Row) :
    calculate_entitlement_for_course db course =
      (if (candidate_runs db course).isEmpty then none
       else if 1 < ((candidate_runs db course).map fun r =>
            calculate_entitlement_for_run db r).dedup.length then none
       else (((candidate_runs db course).map fun r =>
            calculate_entitlement_for_run db r).dedup.head?).join) := by
  unfold calculate_entitlement_for_course
  have hcond :
      (!(courseRunsOf db course.pk).isEmpty &&
        ((courseRunsOf db course.pk).getLast?).isNone) = false := by
    cases hruns : courseRunsOf db course.pk with
    | nil => simp
    | cons a l =>
      have : (a :: l).getLast? = some ((a :: l).getLast (by simp)) :=
        List.getLast?_eq_getLast _ _
      simp [this]
  rw [hcond]
  simp

/-- **C6.** `_calculate_entitlement_for_course` computes over the course's
active course runs; if none are active but at least one run exists, it falls
back to exactly the single most-recently-created run; and with no runs at all
it returns nothing. -/
theorem claim_C6 (db : DB) (course : Row) :
    (active_course_runs db course.pk ≠ [] →
      candidate_runs db course = active_course_runs db course.pk) ∧
    (active_course_runs db course.pk = [] → courseRunsOf db course.pk ≠ [] →
      ∃ r, (courseRunsOf db course.pk).getLast? = some r ∧
        candidate_runs db course = [r]) ∧
    (courseRunsOf db course.pk = [] →
      calculate_entitlement_for_course db course = none) := by
  refine ⟨?_, ?_, ?_⟩
  · intro h
    unfold candidate_runs
    rw [if_neg]
    simpa [List.isEmpty_iff] using h
  · intro hact hruns
    obtain ⟨r, hr⟩ := Option.isSome_iff_exists.mp
      ((List.getLast?_isSome (l := courseRunsOf db course.pk)).mpr hruns)
    refine ⟨r, hr, ?_⟩
    unfold candidate_runs
    rw [if_pos (by simpa [List.isEmpty_iff] using hact), hr]
  · intro hruns
    have hact : active_course_runs db course.pk = [] := by
      rcases hac : active_course_runs db course.pk with _ | ⟨a, l⟩
      · rfl
      · have ha : a ∈ active_course_runs db course.pk := by
          rw [hac]; exact List.mem_cons_self a l
        have := active_sub_courseRuns ha
        rw [hruns] at this
        cases this
    have hcand : candidate_runs db course = [] := by
      unfold candidate_runs
      rw [if_pos (by simp [hact]), hruns]
      rfl
    rw [calc_course_eq, hcand]
    rfl

theorem claim_C6_witness :
    (active_course_runs c6db c6course.pk ≠ [] ∧
     candidate_runs c6db c6course = active_course_runs c6db c6course.pk) ∧
    (courseRunsOf { rows := [] } c6course.pk = [] ∧
     calculate_entitlement_for_course { rows := [] } c6course = none) :=
  ⟨⟨by decide, (claim_C6 c6db c6course).1 (by decide)⟩,
   ⟨by decide, (claim_C6 { rows := [] } c6course).2.2 (by decide)⟩⟩

/-! ## C5: cross-run agreement and create_missing_entitlement -/

theorem one_lt_dedup_length [DecidableEq α] {l : List α} {a b : α}
    (ha : a ∈ l) (hb : b ∈ l) (hne : a ≠ b) : 1 < l.dedup.length := by
  have ha' : a ∈ l.dedup := List.mem_dedup.mpr ha
  have hb' : b ∈ l.dedup := List.mem_dedup.mpr hb
  rcases hd : l.dedup with _ | ⟨x, xs⟩
  · rw [hd] at ha'; cases ha'
  · rcases xs with _ | ⟨y, ys⟩
    · rw [hd] at ha' hb'
      simp at ha' hb'
      exact absurd (ha'.trans hb'.symm) hne
    · simp

theorem dedup_of_all_eq [DecidableEq α] {l : List α} {a : α}
    (hne : l ≠ []) (h : ∀ x ∈ l, x = a) : l.dedup = [a] := by
  induction l with
  | nil => exact absurd rfl hne
  | cons x xs ih =>
    have hx : x = a := h x (List.mem_cons_self _ _)
    subst hx
    rcases hxs : xs with _ | ⟨y, ys⟩
    · simp
    · have hmem : x ∈ xs := by
        rw [hxs]
        have : y = x := (h y (by rw [hxs]; simp)).trans (h x (List.mem_cons_self _ _)).symm
        simp [this.symm]
      rw [← hxs]
      rw [List.dedup_cons_of_mem hmem]
      exact ih (by simp [hxs]) fun z hz => h z (List.mem_cons_of_mem _ hz)

theorem calc_course_agree {db : DB} {course : Row} {t : String × Int × String}
    (hne : candidate_runs db course ≠ [])
    (hall : ∀ r ∈ candidate_runs db course,
      calculate_entitlement_for_run db r = some t) :
    calculate_entitlement_for_course db course = some t := by
  rw [calc_course_eq]
  rw [if_neg (by simpa [List.isEmpty_iff] using hne)]
  have hd : ((candidate_runs db course).map fun r =>
      calculate_entitlement_for_run db r).dedup = [some t] := by
    apply dedup_of_all_eq
    · simpa using hne
    · intro x hx
      obtain ⟨r, hr, rfl⟩ := List.mem_map.mp hx
      exact hall r hr
  rw [hd]
  simp [Option.join]

theorem calc_course_disagree {db : DB} {course : Row} {r1 r2 : Row}
    (hr1 : r1 ∈ candidate_runs db course) (hr2 : r2 ∈ candidate_runs db course)
    (hne : calculate_entitlement_for_run db r1 ≠ calculate_entitlement_for_run db r2) :
    calculate_entitlement_for_course db course = none := by
  rw [calc_course_eq]
  have hne0 : ¬((candidate_runs db course).isEmpty = true) := by
    rw [List.isEmpty_iff]
    intro h0
    rw [h0] at hr1
    cases hr1
  rw [if_neg hne0]
  rw [if_pos]
  exact one_lt_dedup_length (List.mem_map_of_mem _ hr1) (List.mem_map_of_mem _ hr2) hne

/-- Under a benign commerce reply (non-error status, empty product list) the
push changes no local state and returns without raising. -/
theorem push_benign {partner : Partner} {resp : EcomResponse} {db : DB}
    {crun c2 : Row}
    (hc : crun.course.bind (everythingGet db Table.course) = some c2)
    (hst : ¬(400 ≤ resp.status_code ∧ resp.status_code < 600))
    (hpr : resp.products = []) :
    ∃ b, push_to_ecommerce_for_course_run partner resp db crun = (db, .ok b) := by
  unfold push_to_ecommerce_for_course_run
  rw [hc]
  dsimp only
  by_cases hcfg : (!partner.has_lms_api_client || partner.ecommerce_api_url.isNone) = true
  · rw [if_pos hcfg]
    exact ⟨false, rfl⟩
  · rw [if_neg hcfg]
    by_cases hemp : (discoveryProducts db crun c2).isEmpty = true
    · rw [if_pos hemp]
      exact ⟨false, rfl⟩
    · rw [if_neg hemp, if_neg hst, if_neg]
      · exact ⟨true, rfl⟩
      · rw [hpr]
        simp only [List.length_nil]
        intro hlen
        rw [List.isEmpty_iff] at hemp
        exact hemp (List.eq_nil_of_length_eq_zero hlen)

/-- **C5.** When the candidate runs of a course disagree on the calculated
triple, `create_missing_entitlement` returns `False` and creates nothing;
when they all agree on one triple, it creates exactly one entitlement row
with that mode, price and currency and returns `True` (shown here under a
commerce reply that does not itself raise, and with the course's canonical
run — if the push is triggered at all — resolvable). -/
theorem claim_C5 (partner : Partner) (resp : EcomResponse) (db : DB)
    (course : Row) :
    ((∃ r1 ∈ candidate_runs db course, ∃ r2 ∈ candidate_runs db course,
        calculate_entitlement_for_run db r1 ≠ calculate_entitlement_for_run db r2) →
      create_missing_entitlement partner resp db course = (db, .ok false)) ∧
    (∀ mode price currency,
      candidate_runs db course ≠ [] →
      (∀ r ∈ candidate_runs db course,
        calculate_entitlement_for_run db r = some (mode, price, currency)) →
      ¬(400 ≤ resp.status_code ∧ resp.status_code < 600) →
      resp.products = [] →
      (course.draft = false → ∀ cpk, course.canonical_course_run = some cpk →
        ∃ crun, everythingGet db Table.courseRun cpk = some crun ∧
          ∃ ccpk c2, crun.course = some ccpk ∧
            everythingGet db Table.course ccpk = some c2) →
      create_missing_entitlement partner resp db course =
        ({ db with rows := db.rows ++
            [newEntitlementRow db course mode price currency] }, .ok true)) := by
  constructor
  · rintro ⟨r1, hr1, r2, hr2, hne⟩
    unfold create_missing_entitlement
    rw [calc_course_disagree hr1 hr2 hne]
  · intro mode price currency hne hall hst hpr hcanon
    unfold create_missing_entitlement
    rw [calc_course_agree hne hall]
    simp only
    have hsave : saveRow db (newEntitlementRow db course mode price currency) =
        { db with rows := db.rows ++ [newEntitlementRow db course mode price currency] } :=
      saveRow_fresh rfl
    have hentpk : (newEntitlementRow db course mode price currency).pk = freshPk db := rfl
    rw [hsave]
    cases hdraft : course.draft with
    | true => simp
    | false =>
      simp only [Bool.not_false, if_true]
      rcases hcan : course.canonical_course_run with _ | cpk
      · rfl
      · obtain ⟨crun, hcrun, ccpk, c2, hcc, hc2⟩ := hcanon hdraft cpk hcan
        have hcpk : cpk < freshPk db := by
          obtain ⟨hm, _, hp⟩ := everythingGet_mem hcrun
          exact hp ▸ pk_lt_freshPk_of_mem hm
        have hccpk : ccpk < freshPk db := by
          obtain ⟨hm, _, hp⟩ := everythingGet_mem hc2
          exact hp ▸ pk_lt_freshPk_of_mem hm
        have hcrun' : everythingGet
            { db with rows := db.rows ++ [newEntitlementRow db course mode price currency] }
            Table.courseRun cpk = some crun := by
          rw [everythingGet_append (hentpk ▸ Nat.ne_of_lt hcpk ∘ Eq.symm)]
          exact hcrun
        dsimp only
        rw [hcrun']
        dsimp only
        have hc2' : crun.course.bind (everythingGet
            { db with rows := db.rows ++ [newEntitlementRow db course mode price currency] }
            Table.course) = some c2 := by
          rw [hcc]
          rw [show ((some ccpk).bind (everythingGet
              { db with rows := db.rows ++ [newEntitlementRow db course mode price currency] }
              Table.course)) = everythingGet
              { db with rows := db.rows ++ [newEntitlementRow db course mode price currency] }
              Table.course ccpk from rfl]
          rw [everythingGet_append (hentpk ▸ Nat.ne_of_lt hccpk ∘ Eq.symm)]
          exact hc2
        obtain ⟨b, hpush⟩ := @push_benign partner resp _ crun c2 hc2' hst hpr
        rw [hpush]

theorem claim_C5_witness :
    ((∃ r1 ∈ candidate_runs c5dbDis c5course, ∃ r2 ∈ candidate_runs c5dbDis c5course,
        calculate_entitlement_for_run c5dbDis r1 ≠ calculate_entitlement_for_run c5dbDis r2) ∧
      create_missing_entitlement c5partner {} c5dbDis c5course = (c5dbDis, .ok false)) ∧
    ((candidate_runs c5dbAgr c5course ≠ [] ∧
      (∀ r ∈ candidate_runs c5dbAgr c5course,
        calculate_entitlement_for_run c5dbAgr r = some ("verified", 10, "USD"))) ∧
      create_missing_entitlement c5partner {} c5dbAgr c5course =
        ({ c5dbAgr with
            rows := c5dbAgr.rows ++ [newEntitlementRow c5dbAgr c5course "verified" 10 "USD"] },
          .ok true)) :=
  ⟨⟨by decide, (claim_C5 c5partner {} c5dbDis c5course).1 (by decide)⟩,
   ⟨⟨by decide, by decide⟩,
    (claim_C5 c5partner {} c5dbAgr c5course).2 "verified" 10 "USD" (by decide) (by decide)
      (by decide) rfl (fun _ _ h => nomatch h)⟩⟩

/-! ## saveRow query lemmas -/

theorem find?_map_congr {l : List Row} {f : Row → Row} {pred : Row → Bool}
    (h : ∀ r ∈ l, pred (f r) = pred r ∧ (pred r = true → f r = r)) :
    (l.map f).find? pred = l.find? pred := by
  induction l with
  | nil => rfl
  | cons a l ih =>
    have ha := h a (List.mem_cons_self _ _)
    cases hp : pred a with
    | true =>
      rw [List.map_cons, List.find?_cons_of_pos _ (ha.1.trans hp),
        List.find?_cons_of_pos _ hp, ha.2 hp]
    | false =>
      rw [List.map_cons, List.find?_cons_of_neg _ (by simp [ha.1, hp]),
        List.find?_cons_of_neg _ (by simp [hp])]
      exact ih fun r hr => h r (List.mem_cons_of_mem _ hr)

theorem everythingGet_saveRow_ne {db : DB} {row : Row} {t : Table} {p : Nat}
    (h : row.pk ≠ p) :
    everythingGet (saveRow db row) t p = everythingGet db t p := by
  unfold saveRow
  by_cases hany : (db.rows.any fun r =>
      decide (r.table = row.table ∧ r.pk = row.pk)) = true
  · rw [if_pos hany]
    unfold everythingGet
    apply find?_map_congr
    intro r _
    by_cases hc : (decide (r.table = row.table ∧ r.pk = row.pk)) = true
    · rw [decide_eq_true_eq] at hc
      constructor
      · rw [if_pos (by simpa using hc)]
        have h1 : (decide (row.table = t ∧ row.pk = p)) = false := by
          simp only [decide_eq_false_iff_not]
          exact fun hh => h hh.2
        have h2 : (decide (r.table = t ∧ r.pk = p)) = false := by
          simp only [decide_eq_false_iff_not]
          exact fun hh => h (hc.2 ▸ hh.2)
        rw [h1, h2]
      · intro hpred
        rw [decide_eq_true_eq] at hpred
        exact absurd (hc.2 ▸ hpred.2) h
    · rw [if_neg (by simpa using hc)]
      exact ⟨rfl, fun _ => rfl⟩
  · rw [if_neg hany]
    exact everythingGet_append h

theorem find?_map_self {l : List Row} {row : Row}
    (hex : ∃ w ∈ l, (decide (w.table = row.table ∧ w.pk = row.pk)) = true) :
    ((l.map fun r =>
        if decide (r.table = row.table ∧ r.pk = row.pk) then row else r).find?
      fun r => decide (r.table = row.table ∧ r.pk = row.pk)) = some row := by
  induction l with
  | nil => obtain ⟨w, hw, _⟩ := hex; cases hw
  | cons a l ih =>
    by_cases hc : (decide (a.table = row.table ∧ a.pk = row.pk)) = true
    · rw [List.map_cons, if_pos hc, List.find?_cons_of_pos _ (by simp)]
    · rw [List.map_cons, if_neg hc, List.find?_cons_of_neg _ (by simpa using hc)]
      obtain ⟨w, hw, hcw⟩ := hex
      rcases List.mem_cons.mp hw with rfl | hw'
      · exact absurd hcw hc
      · exact ih ⟨w, hw', hcw⟩

theorem everythingGet_saveRow_self {db : DB} {row : Row} :
    everythingGet (saveRow db row) row.table row.pk = some row := by
  unfold saveRow
  by_cases hany : (db.rows.any fun r =>
      decide (r.table = row.table ∧ r.pk = row.pk)) = true
  · rw [if_pos hany]
    unfold everythingGet
    exact find?_map_self (List.any_eq_true.mp hany)
  · rw [if_neg hany]
    unfold everythingGet
    rw [find?_append_single]
    have hany' : (db.rows.any fun r =>
        decide (r.table = row.table ∧ r.pk = row.pk)) = false := by
      revert hany
      cases db.rows.any fun r => decide (r.table = row.table ∧ r.pk = row.pk) <;> simp
    have hnone : (db.rows.find? fun r =>
        decide (r.table = row.table ∧ r.pk = row.pk)) = none := by
      rw [List.find?_eq_none]
      exact List.any_eq_false.mp hany'
    rw [hnone]
    simp

theorem skuTargets_cons (dp : Row) (o : Option String)
    (pairs : List (Row × Option String)) :
    skuTargets ((dp, o) :: pairs) =
      dp.pk :: ((pairs.map fun pr => pr.1.pk) ++
        ((dp, o).1.draft_version.toList ++ pairs.filterMap fun pr => pr.1.draft_version)) := by
  unfold skuTargets
  cases h : dp.draft_version <;> simp [List.filterMap_cons, h]

theorem mem_skuTargets_pk {pairs : List (Row × Option String)}
    {pr : Row × Option String} (h : pr ∈ pairs) : pr.1.pk ∈ skuTargets pairs := by
  unfold skuTargets
  exact List.mem_append.mpr (Or.inl (List.mem_map_of_mem _ h))

theorem mem_skuTargets_dv {pairs : List (Row × Option String)}
    {pr : Row × Option String} {d : Nat} (h : pr ∈ pairs)
    (hd : pr.1.draft_version = some d) : d ∈ skuTargets pairs := by
  unfold skuTargets
  exact List.mem_append.mpr (Or.inr (List.mem_filterMap.mpr ⟨pr, h, hd⟩))

theorem skuTargets_tail_subset {dp : Row} {o : Option String}
    {pairs : List (Row × Option String)} :
    skuTargets pairs ⊆ skuTargets ((dp, o) :: pairs) := by
  intro q hq
  unfold skuTargets at hq ⊢
  rcases List.mem_append.mp hq with h | h
  · exact List.mem_append.mpr (Or.inl (by
      rw [List.map_cons]
      exact List.mem_cons_of_mem _ h))
  · refine List.mem_append.mpr (Or.inr ?_)
    rw [List.filterMap_cons]
    cases (dp, o).1.draft_version
    · exact h
    · exact List.mem_cons_of_mem _ h

theorem applySkus_spec (pairs : List (Row × Option String)) (db : DB)
    (hnd : (skuTargets pairs).Nodup)
    (hres : ∀ pr ∈ pairs, ∀ d, pr.1.draft_version = some d →
      (everythingGet db pr.1.table d).isSome = true) :
    ∃ db', applySkus db pairs = .ok db' ∧
      (∀ t p, p ∉ skuTargets pairs →
        everythingGet db' t p = everythingGet db t p) ∧
      (∀ pr ∈ pairs,
        (∀ s, pr.2 = some s → s ≠ "" →
          everythingGet db' pr.1.table pr.1.pk = some (withSku pr.1 s) ∧
          (∀ d drow, pr.1.draft_version = some d →
            everythingGet db pr.1.table d = some drow →
            everythingGet db' pr.1.table d = some (withSku drow s))) ∧
        ((pr.2 = none ∨ pr.2 = some "") →
          everythingGet db' pr.1.table pr.1.pk = everythingGet db pr.1.table pr.1.pk ∧
          (∀ d, pr.1.draft_version = some d →
            everythingGet db' pr.1.table d = everythingGet db pr.1.table d))) := by
  induction pairs generalizing db with
  | nil =>
    exact ⟨db, rfl, fun _ _ _ => rfl, fun _ h => absurd h (List.not_mem_nil _)⟩
  | cons hd rest ih =>
    obtain ⟨dp, skuOpt⟩ := hd
    rw [skuTargets_cons] at hnd
    have hndTail := (List.nodup_cons.mp hnd).2
    have hpkNotIn := (List.nodup_cons.mp hnd).1
    have hndRest : (skuTargets rest).Nodup := by
      unfold skuTargets
      refine List.Nodup.sublist ?_ hndTail
      exact List.Sublist.append (List.Sublist.refl _) (List.sublist_append_right _ _)
    have hpkRest : dp.pk ∉ skuTargets rest := by
      intro hmem
      apply hpkNotIn
      unfold skuTargets at hmem
      rcases List.mem_append.mp hmem with hh | hh
      · exact List.mem_append.mpr (Or.inl hh)
      · exact List.mem_append.mpr (Or.inr (List.mem_append.mpr (Or.inr hh)))
    have hdvTail : ∀ d, dp.draft_version = some d →
        d ∉ skuTargets rest ∧ d ≠ dp.pk := by
      intro d hd
      have hdmem : d ∈ (dp, skuOpt).1.draft_version.toList := by simp [hd]
      constructor
      · intro hmem
        unfold skuTargets at hmem
        rcases List.mem_append.mp hmem with hh | hh
        · -- d is also some product pk of the rest: contradicts Nodup of the tail
          have : d ∈ (rest.map fun pr => pr.1.pk) ++
              ((dp, skuOpt).1.draft_version.toList ++
                rest.filterMap fun pr => pr.1.draft_version) :=
            List.mem_append.mpr (Or.inl hh)
          have hdis := List.disjoint_of_nodup_append hndTail
          exact absurd (List.mem_append.mpr (Or.inl hdmem)) (hdis hh)
        · have hdis := (List.nodup_append.mp hndTail).2.2
          have h2 := List.nodup_append.mp
            ((List.nodup_append.mp hndTail).2.1)
          exact absurd hh ((h2.2.2) hdmem)
      · intro hdd
        exact hpkNotIn (hdd ▸ List.mem_append.mpr
          (Or.inr (List.mem_append.mpr (Or.inl hdmem))))
    rcases hsku : skuOpt with _ | sku
    · -- no partner_sku returned for this product: skip it
      obtain ⟨db', hok, hpres, hcons⟩ := ih db hndRest
        (fun pr hpr d hd => hres pr (List.mem_cons_of_mem _ hpr) d hd)
      refine ⟨db', hok, ?_, ?_⟩
      · intro t p hp
        exact hpres t p fun hmem => hp (skuTargets_tail_subset hmem)
      · intro pr hpr
        rcases List.mem_cons.mp hpr with rfl | hpr'
        · constructor
          · intro s hs
            simp at hs
          · intro _
            exact ⟨hpres _ _ hpkRest, fun d hd => hpres _ _ (hdvTail d hd).1⟩
        · exact hcons pr hpr'
    · by_cases hemp : sku = ""
      · subst hemp
        obtain ⟨db', hok, hpres, hcons⟩ := ih db hndRest
          (fun pr hpr d hd => hres pr (List.mem_cons_of_mem _ hpr) d hd)
        refine ⟨db', by simpa [applySkus] using hok, ?_, ?_⟩
        · intro t p hp
          exact hpres t p fun hmem => hp (skuTargets_tail_subset hmem)
        · intro pr hpr
          rcases List.mem_cons.mp hpr with rfl | hpr'
          · constructor
            · intro s hs hs0
              simp at hs
              exact absurd hs.symm hs0
            · intro _
              exact ⟨hpres _ _ hpkRest, fun d hd => hpres _ _ (hdvTail d hd).1⟩
          · exact hcons pr hpr'
      · -- a real SKU: write it onto the product and its draft counterpart
        have hdpk : (withSku dp sku).pk = dp.pk := rfl
        rcases hdv : dp.draft_version with _ | d
        · -- no draft counterpart
          have hresT : ∀ pr ∈ rest, ∀ d0, pr.1.draft_version = some d0 →
              (everythingGet (saveRow db (withSku dp sku))
                pr.1.table d0).isSome = true := by
            intro pr hpr d0 hd0
            have hne : (withSku dp sku).pk ≠ d0 :=
              fun hh => hpkRest ((hdpk ▸ hh) ▸ mem_skuTargets_dv hpr hd0)
            rw [everythingGet_saveRow_ne hne]
            exact hres pr (List.mem_cons_of_mem _ hpr) d0 hd0
          obtain ⟨db', hok, hpres, hcons⟩ :=
            ih (saveRow db (withSku dp sku)) hndRest hresT
          have heq : applySkus db ((dp, some sku) :: rest) =
              applySkus (saveRow db (withSku dp sku)) rest := by
            show (if sku = "" then applySkus db rest else _) = _
            rw [if_neg hemp, hdv]
          refine ⟨db', heq ▸ hok, ?_, ?_⟩
          · intro t p hp
            have hp1 : p ∉ skuTargets rest := fun hmem => hp (skuTargets_tail_subset hmem)
            have hp0 : (withSku dp sku).pk ≠ p :=
              fun hh => hp ((hdpk ▸ hh) ▸ mem_skuTargets_pk (List.mem_cons_self _ _))
            rw [hpres t p hp1, everythingGet_saveRow_ne hp0]
          · intro pr hpr
            rcases List.mem_cons.mp hpr with rfl | hpr'
            · constructor
              · intro s hs hs0
                obtain rfl : sku = s := by simpa using hs
                constructor
                · rw [hpres _ _ hpkRest]
                  exact everythingGet_saveRow_self
                · intro d0 drow hd0
                  rw [hdv] at hd0
                  exact nomatch hd0
              · rintro (h | h) <;> simp at h
                exact absurd h hemp
            · obtain ⟨h1, h2⟩ := hcons pr hpr'
              have hne1 : (withSku dp sku).pk ≠ pr.1.pk :=
                fun hh => hpkRest ((hdpk ▸ hh) ▸ mem_skuTargets_pk hpr')
              refine ⟨fun s hs hs0 => ?_, fun hnone => ?_⟩
              · obtain ⟨g1, g2⟩ := h1 s hs hs0
                refine ⟨g1, fun d0 drow hd0 hdrow => ?_⟩
                refine g2 d0 drow hd0 ?_
                have hne : (withSku dp sku).pk ≠ d0 :=
                  fun hh => hpkRest ((hdpk ▸ hh) ▸ mem_skuTargets_dv hpr' hd0)
                rw [everythingGet_saveRow_ne hne]
                exact hdrow
              · obtain ⟨g1, g2⟩ := h2 hnone
                refine ⟨?_, fun d0 hd0 => ?_⟩
                · rw [g1, everythingGet_saveRow_ne hne1]
                · have hne : (withSku dp sku).pk ≠ d0 :=
                    fun hh => hpkRest ((hdpk ▸ hh) ▸ mem_skuTargets_dv hpr' hd0)
                  rw [g2 d0 hd0, everythingGet_saveRow_ne hne]
        · -- the draft counterpart receives the same SKU
          have hd0 : (everythingGet db dp.table d).isSome = true :=
            hres (dp, skuOpt) (List.mem_cons_self _ _) d (by rw [hsku]; exact hdv)
          obtain ⟨drow, hdrow⟩ := Option.isSome_iff_exists.mp hd0
          obtain ⟨hdrowMem, hdrowT, hdrowP⟩ := everythingGet_mem hdrow
          have hdNe : d ≠ dp.pk := (hdvTail d hdv).2
          have hdNotRest : d ∉ skuTargets rest := (hdvTail d hdv).1
          -- the draft row as read inside the loop, after the product save
          have hdrow1 : everythingGet (saveRow db (withSku dp sku))
              dp.table d = some drow := by
            have hne : (withSku dp sku).pk ≠ d :=
              fun hh => hdNe ((hdpk ▸ hh).symm)
            rw [everythingGet_saveRow_ne hne]
            exact hdrow
          have hw2pk : (withSku drow sku).pk = d := by
            show drow.pk = d
            exact hdrowP
          have hresT : ∀ pr ∈ rest, ∀ d0, pr.1.draft_version = some d0 →
              (everythingGet (saveRow (saveRow db (withSku dp sku))
                (withSku drow sku)) pr.1.table d0).isSome = true := by
            intro pr hpr d0 hd0
            have hne2 : (withSku drow sku).pk ≠ d0 :=
              fun hh => hdNotRest ((hw2pk ▸ hh) ▸ mem_skuTargets_dv hpr hd0)
            have hne1 : (withSku dp sku).pk ≠ d0 :=
              fun hh => hpkRest ((hdpk ▸ hh) ▸ mem_skuTargets_dv hpr hd0)
            rw [everythingGet_saveRow_ne hne2, everythingGet_saveRow_ne hne1]
            exact hres pr (List.mem_cons_of_mem _ hpr) d0 hd0
          obtain ⟨db', hok, hpres, hcons⟩ :=
            ih (saveRow (saveRow db (withSku dp sku))
              (withSku drow sku)) hndRest hresT
          have heq : applySkus db ((dp, some sku) :: rest) =
              applySkus (saveRow (saveRow db (withSku dp sku))
                (withSku drow sku)) rest := by
            show (if sku = "" then applySkus db rest else _) = _
            rw [if_neg hemp, hdv]
            show (match everythingGet (saveRow db (withSku dp sku))
                dp.table d with
              | none => Except.error Err.DoesNotExist
              | some d1 => applySkus (saveRow (saveRow db (withSku dp sku))
                  (withSku d1 sku)) rest) = _
            rw [hdrow1]
          refine ⟨db', heq ▸ hok, ?_, ?_⟩
          · intro t p hp
            have hp1 : p ∉ skuTargets rest := fun hmem => hp (skuTargets_tail_subset hmem)
            have hp0 : (withSku dp sku).pk ≠ p :=
              fun hh => hp ((hdpk ▸ hh) ▸ mem_skuTargets_pk (List.mem_cons_self _ _))
            have hp2 : (withSku drow sku).pk ≠ p := by
              intro hh
              apply hp
              have hpd : p = d := by rw [← hh, hw2pk]
              rw [hpd]
              exact mem_skuTargets_dv (List.mem_cons_self (dp, some sku) rest) hdv
            rw [hpres t p hp1, everythingGet_saveRow_ne hp2, everythingGet_saveRow_ne hp0]
          · intro pr hpr
            rcases List.mem_cons.mp hpr with rfl | hpr'
            · constructor
              · intro s hs hs0
                obtain rfl : sku = s := by simpa using hs
                constructor
                · have hg : everythingGet (saveRow (saveRow db (withSku dp sku))
                      (withSku drow sku)) dp.table dp.pk =
                      some (withSku dp sku) := by
                    have hne : (withSku drow sku).pk ≠ dp.pk :=
                      fun hh => hdNe (hw2pk ▸ hh)
                    rw [everythingGet_saveRow_ne hne]
                    exact everythingGet_saveRow_self
                  rw [hpres _ _ hpkRest]
                  exact hg
                · intro d1 drow1 hd1 hdrow1'
                  have hd1d : d1 = d := by
                    rw [hdv] at hd1
                    exact (Option.some.inj hd1).symm
                  have hdrr : drow1 = drow := by
                    rw [hd1d, hdrow] at hdrow1'
                    exact (Option.some.inj hdrow1').symm
                  rw [hd1d, hdrr]
                  have hg : everythingGet (saveRow (saveRow db (withSku dp sku))
                      (withSku drow sku)) dp.table d =
                      some (withSku drow sku) := by
                    have := @everythingGet_saveRow_self
                      (saveRow db (withSku dp sku)) (withSku drow sku)
                    rw [show (withSku drow sku).table = dp.table from
                      hdrowT, hw2pk] at this
                    exact this
                  rw [hpres _ _ hdNotRest]
                  exact hg
              · rintro (h | h) <;> simp at h
                exact absurd h hemp
            · obtain ⟨h1, h2⟩ := hcons pr hpr'
              have hne1 : (withSku dp sku).pk ≠ pr.1.pk :=
                fun hh => hpkRest ((hdpk ▸ hh) ▸ mem_skuTargets_pk hpr')
              have hne2 : (withSku drow sku).pk ≠ pr.1.pk :=
                fun hh => hdNotRest ((hw2pk ▸ hh) ▸ mem_skuTargets_pk hpr')
              refine ⟨fun s hs hs0 => ?_, fun hnone => ?_⟩
              · obtain ⟨g1, g2⟩ := h1 s hs hs0
                refine ⟨g1, fun d0 drow0 hd0 hdrow0 => ?_⟩
                refine g2 d0 drow0 hd0 ?_
                have hneA : (withSku dp sku).pk ≠ d0 :=
                  fun hh => hpkRest ((hdpk ▸ hh) ▸ mem_skuTargets_dv hpr' hd0)
                have hneB : (withSku drow sku).pk ≠ d0 :=
                  fun hh => hdNotRest ((hw2pk ▸ hh) ▸ mem_skuTargets_dv hpr' hd0)
                rw [everythingGet_saveRow_ne hneB, everythingGet_saveRow_ne hneA]
                exact hdrow0
              · obtain ⟨g1, g2⟩ := h2 hnone
                refine ⟨?_, fun d0 hd0 => ?_⟩
                · rw [g1, everythingGet_saveRow_ne hne2, everythingGet_saveRow_ne hne1]
                · have hneA : (withSku dp sku).pk ≠ d0 :=
                    fun hh => hpkRest ((hdpk ▸ hh) ▸ mem_skuTargets_dv hpr' hd0)
                  have hneB : (withSku drow sku).pk ≠ d0 :=
                    fun hh => hdNotRest ((hw2pk ▸ hh) ▸ mem_skuTargets_dv hpr' hd0)
                  rw [g2 d0 hd0, everythingGet_saveRow_ne hneB,
                    everythingGet_saveRow_ne hneA]

/-! ## Evaluated forms of the push adapter -/

theorem push_eval {partner : Partner} {resp : EcomResponse} {db : DB}
    {course_run course : Row}
    (hc : course_run.course.bind (everythingGet db Table.course) = some course)
    (hcfg : (!partner.has_lms_api_client || partner.ecommerce_api_url.isNone) = false)
    (hprod : (discoveryProducts db course_run course).isEmpty = false) :
    push_to_ecommerce_for_course_run partner resp db course_run =
      (if 400 ≤ resp.status_code ∧ resp.status_code < 600 then
        match resp.error with
        | some e =>
          if e ≠ "" then (db, .error (.EcommerceSiteAPIClientException e))
          else (db, .error (.HTTPError resp.status_code))
        | none => (db, .error (.HTTPError resp.status_code))
      else if (discoveryProducts db course_run course).length = resp.products.length then
        match applySkus db ((discoveryProducts db course_run course).zip resp.products) with
        | .ok db' => (db', .ok true)
        | .error e => (db, .error e)
      else (db, .ok true)) := by
  unfold push_to_ecommerce_for_course_run
  rw [hc]
  dsimp only
  rw [if_neg (by rw [hcfg]; exact Bool.false_ne_true),
    if_neg (by rw [hprod]; exact Bool.false_ne_true)]

/-- **C9.** A push whose HTTP response status lies in `[400, 600)` raises: a
typed `EcommerceSiteAPIClientException` carrying the server-supplied error
message when the body holds a nonempty one, and a generic error from the HTTP
status otherwise; in neither case does the call return normally. -/
theorem claim_C9 (partner : Partner) (resp : EcomResponse) (db : DB)
    (course_run course : Row)
    (hc : course_run.course.bind (everythingGet db Table.course) = some course)
    (hcfg : (!partner.has_lms_api_client || partner.ecommerce_api_url.isNone) = false)
    (hprod : (discoveryProducts db course_run course).isEmpty = false)
    (hst : 400 ≤ resp.status_code ∧ resp.status_code < 600) :
    (∀ msg, resp.error = some msg → msg ≠ "" →
      push_to_ecommerce_for_course_run partner resp db course_run =
        (db, .error (.EcommerceSiteAPIClientException msg))) ∧
    ((resp.error = none ∨ resp.error = some "") →
      push_to_ecommerce_for_course_run partner resp db course_run =
        (db, .error (.HTTPError resp.status_code))) ∧
    (∀ db' b, push_to_ecommerce_for_course_run partner resp db course_run ≠
      (db', .ok b)) := by
  rw [push_eval hc hcfg hprod, if_pos hst]
  refine ⟨?_, ?_, ?_⟩
  · intro msg hmsg hne
    rw [hmsg]
    dsimp only
    rw [if_pos hne]
  · rintro (h | h)
    · rw [h]
    · rw [h]
      simp
  · intro db' b
    cases herr : resp.error with
    | none => simp
    | some e =>
      by_cases he : e ≠ "" <;> simp [he]

theorem claim_C9_witness :
    ((c9run.course.bind (everythingGet c9db Table.course) =
        some { table := Table.course, pk := 1 }) ∧
      (!c9partner.has_lms_api_client || c9partner.ecommerce_api_url.isNone) = false ∧
      (discoveryProducts c9db c9run { table := Table.course, pk := 1 }).isEmpty = false ∧
      (400 ≤ 404 ∧ 404 < 600)) ∧
    push_to_ecommerce_for_course_run c9partner
        { status_code := 404, error := some "bad" } c9db c9run =
      (c9db, .error (.EcommerceSiteAPIClientException "bad")) :=
  ⟨⟨by decide, by decide, by decide, by decide⟩,
    (claim_C9 c9partner { status_code := 404, error := some "bad" } c9db c9run
      { table := Table.course, pk := 1 } (by decide) (by decide) (by decide)
      (by decide)).1 "bad" rfl (by decide)⟩

theorem zip_get {l1 : List Row} {l2 : List (Option String)} {i : Nat}
    (h : i < (l1.zip l2).length) (h1 : i < l1.length) (h2 : i < l2.length) :
    (l1.zip l2).get ⟨i, h⟩ = (l1.get ⟨i, h1⟩, l2.get ⟨i, h2⟩) := by
  simp [List.get_eq_getElem, List.getElem_zip]

/-- **C3.** A push that submits its products and receives a successful
response with exactly as many products, in submission order, assigns the
`i`-th returned `partner_sku` to the `i`-th submitted local product and
mirrors it onto that product's draft counterpart (when `draft_version` is
set), inside one local transaction (the write-back loop is atomic in the
model: it either completes or leaves no writes). -/
theorem claim_C3 (partner : Partner) (resp : EcomResponse) (db : DB)
    (course_run course : Row)
    (hc : course_run.course.bind (everythingGet db Table.course) = some course)
    (hcfg : (!partner.has_lms_api_client || partner.ecommerce_api_url.isNone) = false)
    (hprod : (discoveryProducts db course_run course).isEmpty = false)
    (hst : ¬(400 ≤ resp.status_code ∧ resp.status_code < 600))
    (hlen : (discoveryProducts db course_run course).length = resp.products.length)
    (hnd : (skuTargets ((discoveryProducts db course_run course).zip resp.products)).Nodup)
    (hres : ∀ pr ∈ (discoveryProducts db course_run course).zip resp.products,
      ∀ d, pr.1.draft_version = some d →
        (everythingGet db pr.1.table d).isSome = true) :
    ∃ db', push_to_ecommerce_for_course_run partner resp db course_run =
        (db', .ok true) ∧
      ∀ i (hi : i < (discoveryProducts db course_run course).length)
        (hi2 : i < resp.products.length),
        ∀ s, resp.products.get ⟨i, hi2⟩ = some s → s ≠ "" →
          everythingGet db'
              ((discoveryProducts db course_run course).get ⟨i, hi⟩).table
              ((discoveryProducts db course_run course).get ⟨i, hi⟩).pk =
            some (withSku ((discoveryProducts db course_run course).get ⟨i, hi⟩) s) ∧
          (∀ d drow,
            ((discoveryProducts db course_run course).get ⟨i, hi⟩).draft_version = some d →
            everythingGet db
              ((discoveryProducts db course_run course).get ⟨i, hi⟩).table d = some drow →
            everythingGet db'
              ((discoveryProducts db course_run course).get ⟨i, hi⟩).table d =
              some (withSku drow s)) := by
  obtain ⟨db', hok, _, hcons⟩ := applySkus_spec
    ((discoveryProducts db course_run course).zip resp.products) db hnd hres
  refine ⟨db', ?_, ?_⟩
  · rw [push_eval hc hcfg hprod, if_neg hst, if_pos hlen, hok]
  · intro i hi hi2 s hs hs0
    have hzl : i < ((discoveryProducts db course_run course).zip resp.products).length := by
      rw [List.length_zip]
      omega
    have hpr : ((discoveryProducts db course_run course).get ⟨i, hi⟩,
        resp.products.get ⟨i, hi2⟩) ∈
        (discoveryProducts db course_run course).zip resp.products := by
      rw [← zip_get hzl hi hi2]
      exact List.get_mem _ _ _
    obtain ⟨h1, _⟩ := hcons _ hpr
    exact h1 s hs hs0

/-- **C10.** On a successful response whose product-list length differs from
the number of submitted products, no local SKU is modified anywhere (the
state is returned unchanged) and the push still returns `True`; and when the
lengths match, a returned product with a missing or empty `partner_sku`
leaves that product's row and draft counterpart untouched, while every other
position with a nonempty `partner_sku` still receives it. -/
theorem claim_C10 (partner : Partner) (resp : EcomResponse) (db : DB)
    (course_run course : Row)
    (hc : course_run.course.bind (everythingGet db Table.course) = some course)
    (hcfg : (!partner.has_lms_api_client || partner.ecommerce_api_url.isNone) = false)
    (hprod : (discoveryProducts db course_run course).isEmpty = false)
    (hst : ¬(400 ≤ resp.status_code ∧ resp.status_code < 600)) :
    ((discoveryProducts db course_run course).length ≠ resp.products.length →
      push_to_ecommerce_for_course_run partner resp db course_run = (db, .ok true)) ∧
    ((discoveryProducts db course_run course).length = resp.products.length →
      (skuTargets ((discoveryProducts db course_run course).zip
        resp.products)).Nodup →
      (∀ pr ∈ (discoveryProducts db course_run course).zip resp.products,
        ∀ d, pr.1.draft_version = some d →
          (everythingGet db pr.1.table d).isSome = true) →
      ∃ db', push_to_ecommerce_for_course_run partner resp db course_run =
          (db', .ok true) ∧
        ∀ i (hi : i < (discoveryProducts db course_run course).length)
          (hi2 : i < resp.products.length),
          ((resp.products.get ⟨i, hi2⟩ = none ∨ resp.products.get ⟨i, hi2⟩ = some "") →
            everythingGet db'
                ((discoveryProducts db course_run course).get ⟨i, hi⟩).table
                ((discoveryProducts db course_run course).get ⟨i, hi⟩).pk =
              everythingGet db
                ((discoveryProducts db course_run course).get ⟨i, hi⟩).table
                ((discoveryProducts db course_run course).get ⟨i, hi⟩).pk ∧
            (∀ d, ((discoveryProducts db course_run course).get ⟨i, hi⟩).draft_version =
                some d →
              everythingGet db'
                  ((discoveryProducts db course_run course).get ⟨i, hi⟩).table d =
                everythingGet db
                  ((discoveryProducts db course_run course).get ⟨i, hi⟩).table d)) ∧
          (∀ s, resp.products.get ⟨i, hi2⟩ = some s → s ≠ "" →
            everythingGet db'
                ((discoveryProducts db course_run course).get ⟨i, hi⟩).table
                ((discoveryProducts db course_run course).get ⟨i, hi⟩).pk =
              some (withSku ((discoveryProducts db course_run course).get ⟨i, hi⟩) s))) := by
  constructor
  · intro hlen
    rw [push_eval hc hcfg hprod, if_neg hst, if_neg hlen]
  · intro hlen hnd hres
    obtain ⟨db', hok, _, hcons⟩ := applySkus_spec
      ((discoveryProducts db course_run course).zip resp.products) db hnd hres
    refine ⟨db', ?_, ?_⟩
    · rw [push_eval hc hcfg hprod, if_neg hst, if_pos hlen, hok]
    · intro i hi hi2
      have hzl : i < ((discoveryProducts db course_run course).zip resp.products).length := by
        rw [List.length_zip]
        omega
      have hpr : ((discoveryProducts db course_run course).get ⟨i, hi⟩,
          resp.products.get ⟨i, hi2⟩) ∈
          (discoveryProducts db course_run course).zip resp.products := by
        rw [← zip_get hzl hi hi2]
        exact List.get_mem _ _ _
      obtain ⟨h1, h2⟩ := hcons _ hpr
      exact ⟨h2, fun s hs hs0 => (h1 s hs hs0).1⟩

theorem claim_C3_witness :
    ((c3run.course.bind (everythingGet c3db Table.course) = some c3course) ∧
      (!c9partner.has_lms_api_client || c9partner.ecommerce_api_url.isNone) = false ∧
      (discoveryProducts c3db c3run c3course).isEmpty = false ∧
      ¬(400 ≤ c3resp.status_code ∧ c3resp.status_code < 600) ∧
      (discoveryProducts c3db c3run c3course).length = c3resp.products.length ∧
      (skuTargets ((discoveryProducts c3db c3run c3course).zip c3resp.products)).Nodup ∧
      (∀ pr ∈ (discoveryProducts c3db c3run c3course).zip c3resp.products,
        ∀ d, pr.1.draft_version = some d →
          (everythingGet c3db pr.1.table d).isSome = true)) ∧
    (∃ db', push_to_ecommerce_for_course_run c9partner c3resp c3db c3run =
        (db', .ok true) ∧
      everythingGet db' Table.seat 3 = some (withSku c3seat "SA") ∧
      everythingGet db' Table.seat 4 = some (withSku c3draftSeat "SA") ∧
      everythingGet db' Table.entitlement 5 = some (withSku c3ent "SB")) := by
  refine ⟨⟨by decide, by decide, by decide, by decide, by decide, by decide, by decide⟩, ?_⟩
  obtain ⟨db', hok, hcons⟩ := claim_C3 c9partner c3resp c3db c3run c3course
    (by decide) (by decide) (by decide) (by decide) (by decide) (by decide) (by decide)
  refine ⟨db', hok, ?_, ?_, ?_⟩
  · have h := (hcons 0 (by decide) (by decide) "SA" (by decide) (by decide)).1
    exact h
  · have h := ((hcons 0 (by decide) (by decide) "SA" (by decide) (by decide)).2
      4 c3draftSeat (by decide) (by decide))
    exact h
  · have h := (hcons 1 (by decide) (by decide) "SB" (by decide) (by decide)).1
    exact h

theorem claim_C10_witness :
    ((discoveryProducts c3db c3run c3course).length ≠ c10respShort.products.length ∧
      push_to_ecommerce_for_course_run c9partner c10respShort c3db c3run =
        (c3db, .ok true)) ∧
    (∃ db', push_to_ecommerce_for_course_run c9partner c10respMixed c3db c3run =
        (db', .ok true) ∧
      everythingGet db' Table.seat 3 = everythingGet c3db Table.seat 3 ∧
      everythingGet db' Table.seat 4 = everythingGet c3db Table.seat 4 ∧
      everythingGet db' Table.entitlement 5 = some (withSku c3ent "SB")) := by
  constructor
  · exact ⟨by decide, (claim_C10 c9partner c10respShort c3db c3run c3course
      (by decide) (by decide) (by decide) (by decide)).1 (by decide)⟩
  · obtain ⟨db', hok, hcons⟩ := (claim_C10 c9partner c10respMixed c3db c3run c3course
      (by decide) (by decide) (by decide) (by decide)).2 (by decide) (by decide)
      (by decide)
    refine ⟨db', hok, ?_, ?_, ?_⟩
    · exact (((hcons 0 (by decide) (by decide)).1 (Or.inl (by decide))).1)
    · exact (((hcons 0 (by decide) (by decide)).1 (Or.inl (by decide))).2
        4 (by decide))
    · exact ((hcons 1 (by decide) (by decide)).2 "SB" (by decide) (by decide))

/-! ## Attribute-application and m2m lemmas -/

theorem setAttr_pk (r : Row) (k : String) (v : AttrValue) : (setAttr r k v).pk = r.pk := by
  unfold setAttr
  split <;> try rfl
  split <;> try rfl
  split <;> rfl

theorem setAttr_draft (r : Row) (k : String) (v : AttrValue) :
    (setAttr r k v).draft = r.draft := by
  unfold setAttr
  split <;> try rfl
  split <;> try rfl
  split <;> rfl

theorem setAttr_table (r : Row) (k : String) (v : AttrValue) :
    (setAttr r k v).table = r.table := by
  unfold setAttr
  split <;> try rfl
  split <;> try rfl
  split <;> rfl

theorem setAttr_draft_version (r : Row) (k : String) (v : AttrValue) :
    (setAttr r k v).draft_version = r.draft_version := by
  unfold setAttr
  split <;> try rfl
  split <;> try rfl
  split <;> rfl

theorem applyAttrs_pk (r : Row) (attrs : List (String × AttrValue)) :
    (applyAttrs r attrs).pk = r.pk := by
  induction attrs generalizing r with
  | nil => rfl
  | cons kv l ih => rw [applyAttrs] at *; simp only [List.foldl_cons]
                    rw [show (List.foldl (fun r kv => setAttr r kv.1 kv.2)
                      (setAttr r kv.1 kv.2) l) = applyAttrs (setAttr r kv.1 kv.2) l from rfl,
                      ih, setAttr_pk]

theorem applyAttrs_draft (r : Row) (attrs : List (String × AttrValue)) :
    (applyAttrs r attrs).draft = r.draft := by
  induction attrs generalizing r with
  | nil => rfl
  | cons kv l ih => rw [applyAttrs] at *; simp only [List.foldl_cons]
                    rw [show (List.foldl (fun r kv => setAttr r kv.1 kv.2)
                      (setAttr r kv.1 kv.2) l) = applyAttrs (setAttr r kv.1 kv.2) l from rfl,
                      ih, setAttr_draft]

theorem applyAttrs_table (r : Row) (attrs : List (String × AttrValue)) :
    (applyAttrs r attrs).table = r.table := by
  induction attrs generalizing r with
  | nil => rfl
  | cons kv l ih => rw [applyAttrs] at *; simp only [List.foldl_cons]
                    rw [show (List.foldl (fun r kv => setAttr r kv.1 kv.2)
                      (setAttr r kv.1 kv.2) l) = applyAttrs (setAttr r kv.1 kv.2) l from rfl,
                      ih, setAttr_table]

theorem applyAttrs_draft_version (r : Row) (attrs : List (String × AttrValue)) :
    (applyAttrs r attrs).draft_version = r.draft_version := by
  induction attrs generalizing r with
  | nil => rfl
  | cons kv l ih => rw [applyAttrs] at *; simp only [List.foldl_cons]
                    rw [show (List.foldl (fun r kv => setAttr r kv.1 kv.2)
                      (setAttr r kv.1 kv.2) l) = applyAttrs (setAttr r kv.1 kv.2) l from rfl,
                      ih, setAttr_draft_version]

theorem rows_foldl_m2mSet (model : Table) (p : Nat)
    (l : List (String × List Nat)) (db : DB) :
    (l.foldl (fun db kv => m2mSet db model p kv.1 kv.2) db).rows = db.rows := by
  induction l generalizing db with
  | nil => rfl
  | cons kv l ih => rw [List.foldl_cons, ih]; rfl

theorem rows_foldl_m2mAdd (model : Table) (p q : Nat) (l : List String) (db : DB) :
    (l.foldl (fun db f => m2mAdd db model p f (m2mGet db model q f)) db).rows = db.rows := by
  induction l generalizing db with
  | nil => rfl
  | cons f l ih => rw [List.foldl_cons, ih]; rfl

theorem everythingGet_rows_eq {db1 db2 : DB} (h : db1.rows = db2.rows)
    (t : Table) (p : Nat) : everythingGet db1 t p = everythingGet db2 t p := by
  unfold everythingGet
  rw [h]

theorem objectsGet_mem {db : DB} {t : Table} {p : Nat} {r : Row}
    (h : objectsGet db t p = some r) :
    r ∈ db.rows ∧ r.table = t ∧ r.pk = p ∧ r.draft = false := by
  obtain ⟨hm, hp⟩ := find?_mem_of_eq_some h
  simp only [decide_eq_true_eq] at hp
  exact ⟨hm, hp.1, hp.2.1, hp.2.2⟩

theorem find?_map_cond_first {l : List Row} {cond pred : Row → Bool} {new : Row}
    (hex : ∃ w ∈ l, cond w = true)
    (hothers : ∀ r ∈ l, cond r = false → pred r = false)
    (hnew : pred new = true) :
    (l.map fun r => if cond r then new else r).find? pred = some new := by
  induction l with
  | nil => obtain ⟨w, hw, _⟩ := hex; cases hw
  | cons a l ih =>
    by_cases hc : cond a = true
    · rw [List.map_cons, if_pos hc, List.find?_cons_of_pos _ hnew]
    · have hca : cond a = false := by revert hc; cases cond a <;> simp
      rw [List.map_cons, if_neg (by rw [hca]; exact Bool.false_ne_true),
        List.find?_cons_of_neg _ (by rw [hothers a (List.mem_cons_self _ _) hca]; simp)]
      obtain ⟨w, hw, hcw⟩ := hex
      rcases List.mem_cons.mp hw with rfl | hw'
      · exact absurd hcw hc
      · exact ih ⟨w, hw', hcw⟩ fun r hr => hothers r (List.mem_cons_of_mem _ hr)

theorem sdsDraft_pk (db : DB) (obj : Row) (attrs : List (String × AttrValue)) :
    (sdsDraft db obj attrs).pk = freshPk db := by
  unfold sdsDraft
  rw [applyAttrs_pk]

theorem sdsDraft_draft (db : DB) (obj : Row) (attrs : List (String × AttrValue)) :
    (sdsDraft db obj attrs).draft = true := by
  unfold sdsDraft
  rw [applyAttrs_draft]

theorem sdsDraft_table (db : DB) (obj : Row) (attrs : List (String × AttrValue)) :
    (sdsDraft db obj attrs).table = obj.table := by
  unfold sdsDraft
  rw [applyAttrs_table]

theorem saveRow_replace {db : DB} {row : Row}
    (h : ∃ r ∈ db.rows, r.table = row.table ∧ r.pk = row.pk) :
    saveRow db row = { db with rows := db.rows.map (fun r =>
      if decide (r.table = row.table ∧ r.pk = row.pk) then row else r) } := by
  unfold saveRow
  rw [if_pos]
  rw [List.any_eq_true]
  obtain ⟨r, hr, hc⟩ := h
  exact ⟨r, hr, by simpa using hc⟩

theorem everythingGet_fresh_append {db : DB} {d : Row} (hpk : d.pk = freshPk db)
    (t : Table) :
    everythingGet { db with rows := db.rows ++ [d] } t d.pk =
      if d.table = t then some d else none := by
  unfold everythingGet
  rw [find?_append_single]
  have hnone : (db.rows.find? fun r => decide (r.table = t ∧ r.pk = d.pk)) = none := by
    rw [List.find?_eq_none]
    intro r hr
    simp only [decide_eq_true_eq, not_and]
    intro _ hh
    exact absurd (hh.trans hpk) (Nat.ne_of_lt (pk_lt_freshPk_of_mem hr))
  rw [hnone]
  by_cases hdt : d.table = t
  · rw [if_pos (by simp [hdt]), if_pos hdt]
    rfl
  · rw [if_neg (by simp [hdt]), if_neg hdt]
    rfl

theorem set_draft_state_spec {db : DB} {model : Table} {obj orig : Row}
    {attrs : List (String × AttrValue)} {ras : List (String × List Nat)}
    (h : objectsGet db model obj.pk = some orig) :
    ∃ db1, set_draft_state db model obj attrs ras =
        some (db1, sdsDraft db obj attrs, sdsOrig db model obj orig attrs) ∧
      db1.rows = (db.rows.map (fun r =>
        if decide (r.table = model ∧ r.pk = obj.pk) then sdsOrig db model obj orig attrs
        else r)) ++ [sdsDraft db obj attrs] := by
  obtain ⟨hmem, hT, hP, hD⟩ := objectsGet_mem h
  have hlt : obj.pk < freshPk db := hP ▸ pk_lt_freshPk_of_mem hmem
  have hOT : (sdsOrig db model obj orig attrs).table = orig.table := by
    unfold sdsOrig
    split <;> rfl
  have hOP : (sdsOrig db model obj orig attrs).pk = orig.pk := by
    unfold sdsOrig
    split <;> rfl
  unfold set_draft_state
  rw [h]
  dsimp only
  simp only [show applyAttrs { obj with pk := freshPk db, draft := true } attrs =
    sdsDraft db obj attrs from rfl]
  simp only [saveRow_fresh (sdsDraft_pk db obj attrs)]
  have h3 : everythingGet (List.foldl
      (fun dbx kv => m2mSet dbx model (sdsDraft db obj attrs).pk kv.1 kv.2)
      { db with rows := db.rows ++ [sdsDraft db obj attrs] } ras) model
      (sdsDraft db obj attrs).pk =
      if (sdsDraft db obj attrs).table = model then some (sdsDraft db obj attrs)
      else none := by
    rw [everythingGet_rows_eq (rows_foldl_m2mSet model (sdsDraft db obj attrs).pk ras
      { db with rows := db.rows ++ [sdsDraft db obj attrs] })]
    exact everythingGet_fresh_append (sdsDraft_pk db obj attrs) model
  simp only [h3]
  have h4 : ((if (sdsDraft db obj attrs).table = model then some (sdsDraft db obj attrs)
      else none).getD (sdsDraft db obj attrs)) = sdsDraft db obj attrs := by
    split <;> rfl
  simp only [h4, ite_self, sdsDraft_pk]
  by_cases hm : model = Table.course ∨ model = Table.courseRun
  · have h5 : ({ orig with salesforce_id := (sdsDraft db obj attrs).salesforce_id, draft_version := some (freshPk db) } : Row) = sdsOrig db model obj orig attrs := by
      unfold sdsOrig
      rw [if_pos hm]
    simp only [if_pos hm, h5]
    have hEx : ∃ r ∈ (List.foldl
        (fun dbx kv => m2mSet dbx model (freshPk db) kv.1 kv.2)
        { db with rows := db.rows ++ [sdsDraft db obj attrs] } ras).rows,
        r.table = (sdsOrig db model obj orig attrs).table ∧
        r.pk = (sdsOrig db model obj orig attrs).pk := by
      refine ⟨orig, ?_, hOT.symm, hOP.symm⟩
      rw [rows_foldl_m2mSet]
      exact List.mem_append.mpr (Or.inl hmem)
    simp only [saveRow_replace hEx]
    refine ⟨_, rfl, ?_⟩
    simp only [rows_foldl_m2mAdd]
    simp only [rows_foldl_m2mSet]
    rw [List.map_append]
    have hcd : (decide ((sdsDraft db obj attrs).table =
        (sdsOrig db model obj orig attrs).table ∧ (sdsDraft db obj attrs).pk =
        (sdsOrig db model obj orig attrs).pk)) = false := by
      simp only [decide_eq_false_iff_not, not_and]
      intro _ hh
      rw [sdsDraft_pk, hOP, hP] at hh
      exact absurd hh.symm (Nat.ne_of_lt hlt)
    simp only [List.map_cons, List.map_nil, hcd, Bool.false_eq_true, if_false]
    congr 1
    apply List.map_congr_left
    intro r _
    rw [hOT, hOP, hT, hP]
  · have h5 : ({ orig with draft_version := some (freshPk db) } : Row) =
        sdsOrig db model obj orig attrs := by
      unfold sdsOrig
      rw [if_neg hm]
    simp only [if_neg hm, h5]
    have hEx : ∃ r ∈ (List.foldl
        (fun dbx kv => m2mSet dbx model (freshPk db) kv.1 kv.2)
        { db with rows := db.rows ++ [sdsDraft db obj attrs] } ras).rows,
        r.table = (sdsOrig db model obj orig attrs).table ∧
        r.pk = (sdsOrig db model obj orig attrs).pk := by
      refine ⟨orig, ?_, hOT.symm, hOP.symm⟩
      rw [rows_foldl_m2mSet]
      exact List.mem_append.mpr (Or.inl hmem)
    simp only [saveRow_replace hEx]
    refine ⟨_, rfl, ?_⟩
    simp only [rows_foldl_m2mAdd]
    simp only [rows_foldl_m2mSet]
    rw [List.map_append]
    have hcd : (decide ((sdsDraft db obj attrs).table =
        (sdsOrig db model obj orig attrs).table ∧ (sdsDraft db obj attrs).pk =
        (sdsOrig db model obj orig attrs).pk)) = false := by
      simp only [decide_eq_false_iff_not, not_and]
      intro _ hh
      rw [sdsDraft_pk, hOP, hP] at hh
      exact absurd hh.symm (Nat.ne_of_lt hlt)
    simp only [List.map_cons, List.map_nil, hcd, Bool.false_eq_true, if_false]
    congr 1
    apply List.map_congr_left
    intro r _
    rw [hOT, hOP, hT, hP]

theorem sdsOrig_pk (db : DB) (model : Table) (obj orig : Row)
    (attrs : List (String × AttrValue)) :
    (sdsOrig db model obj orig attrs).pk = orig.pk := by
  unfold sdsOrig
  split <;> rfl

theorem sdsOrig_table (db : DB) (model : Table) (obj orig : Row)
    (attrs : List (String × AttrValue)) :
    (sdsOrig db model obj orig attrs).table = orig.table := by
  unfold sdsOrig
  split <;> rfl

theorem sdsOrig_draft (db : DB) (model : Table) (obj orig : Row)
    (attrs : List (String × AttrValue)) :
    (sdsOrig db model obj orig attrs).draft = orig.draft := by
  unfold sdsOrig
  split <;> rfl

theorem sdsOrig_dv (db : DB) (model : Table) (obj orig : Row)
    (attrs : List (String × AttrValue)) :
    (sdsOrig db model obj orig attrs).draft_version = some (freshPk db) := by
  unfold sdsOrig
  split <;> rfl

/-- **C1.** Round-trip: applying `set_draft_state` to an official row and then
`set_official_state` to the resulting draft yields an official row carrying
the original official row's primary key — the upsert-by-identity of
`set_official_state` reuses the existing official key instead of allocating
a new one. -/
theorem claim_C1 (db : DB) (model : Table) (obj : Row)
    (attrs : List (String × AttrValue)) (ras : List (String × List Nat))
    (attrs2 : List (String × AttrValue))
    (hWF : WF db) (hT : obj.table = model)
    (h : objectsGet db model obj.pk = some obj) :
    ∃ db1 d o db2 f,
      set_draft_state db model obj attrs ras = some (db1, d, o) ∧
      set_official_state db1 model d attrs2 = some (db2, f) ∧
      f.pk = obj.pk ∧ f.draft = false := by
  obtain ⟨hmem, hTT, hPP, hDD⟩ := objectsGet_mem h
  obtain ⟨db1, hsds, hrows⟩ := set_draft_state_spec h
  have hdd : (sdsDraft db obj attrs).draft = true := sdsDraft_draft db obj attrs
  have hdpk : (sdsDraft db obj attrs).pk = freshPk db := sdsDraft_pk db obj attrs
  have hov : official_version db1 model (sdsDraft db obj attrs) =
      some (sdsOrig db model obj obj attrs) := by
    unfold official_version
    rw [hrows, find?_append_single]
    have hfirst : ((db.rows.map (fun r =>
        if decide (r.table = model ∧ r.pk = obj.pk) then sdsOrig db model obj obj attrs
        else r)).find? fun r => decide (r.table = model ∧ r.draft = false ∧
          r.draft_version = some (sdsDraft db obj attrs).pk)) =
        some (sdsOrig db model obj obj attrs) := by
      apply find?_map_cond_first
      · exact ⟨obj, hmem, by simp [hT]⟩
      · intro r hr _
        simp only [decide_eq_false_iff_not, not_and]
        intro _ _ hdv
        rw [hdpk] at hdv
        obtain ⟨r', hr', hp'⟩ := List.mem_map.mp (hWF.2 r hr (freshPk db) hdv)
        exact absurd hp' (Nat.ne_of_lt (pk_lt_freshPk_of_mem hr'))
      · simp only [decide_eq_true_eq]
        exact ⟨(sdsOrig_table db model obj obj attrs).trans hT,
          (sdsOrig_draft db model obj obj attrs).trans hDD,
          (sdsOrig_dv db model obj obj attrs).trans (by rw [hdpk])⟩
    rw [hfirst]
    rfl
  have heg : everythingGet db1 model (sdsDraft db obj attrs).pk =
      some (sdsDraft db obj attrs) := by
    unfold everythingGet
    rw [hrows, find?_append_single]
    have hnone : ((db.rows.map (fun r =>
        if decide (r.table = model ∧ r.pk = obj.pk) then sdsOrig db model obj obj attrs
        else r)).find? fun r => decide (r.table = model ∧
          r.pk = (sdsDraft db obj attrs).pk)) = none := by
      rw [List.find?_eq_none]
      intro x hx
      obtain ⟨r, hr, rfl⟩ := List.mem_map.mp hx
      by_cases hc : (decide (r.table = model ∧ r.pk = obj.pk)) = true
      · rw [if_pos hc]
        simp only [decide_eq_true_eq, not_and]
        intro _
        rw [sdsOrig_pk, hdpk]
        exact Nat.ne_of_lt (pk_lt_freshPk_of_mem hmem)
      · rw [if_neg hc]
        simp only [decide_eq_true_eq, not_and]
        intro _
        rw [hdpk]
        exact Nat.ne_of_lt (pk_lt_freshPk_of_mem hr)
    rw [hnone]
    have hpred : (decide ((sdsDraft db obj attrs).table = model ∧
        (sdsDraft db obj attrs).pk = (sdsDraft db obj attrs).pk)) = true := by
      simp [sdsDraft_table, hT]
    rw [hpred]
    rfl
  refine ⟨db1, sdsDraft db obj attrs, sdsOrig db model obj obj attrs, ?_⟩
  unfold set_official_state
  simp only [hdd, if_true, hov, heg]
  by_cases hA : attrs2.isEmpty
  · rw [if_pos hA]
    by_cases hc : model = Table.course
    · rw [if_pos hc]
      refine ⟨_, _, hsds, rfl, ?_, rfl⟩
      rw [sdsOrig_pk, hPP]
    · rw [if_neg hc]
      refine ⟨_, _, hsds, rfl, ?_, rfl⟩
      rw [sdsOrig_pk, hPP]
  · rw [if_neg hA]
    by_cases hc : model = Table.course
    · rw [if_pos hc]
      refine ⟨_, _, hsds, rfl, ?_, ?_⟩
      · rw [applyAttrs_pk]
        rw [show ({ sdsDraft db obj attrs with pk := (sdsOrig db model obj obj attrs).pk, draft := false, draft_version := some (sdsDraft db obj attrs).pk, canonical_course_run := (some (sdsOrig db model obj obj attrs)).bind Row.canonical_course_run } : Row).pk = (sdsOrig db model obj obj attrs).pk from rfl]
        rw [sdsOrig_pk, hPP]
      · rw [applyAttrs_draft]
    · rw [if_neg hc]
      refine ⟨_, _, hsds, rfl, ?_, ?_⟩
      · rw [applyAttrs_pk]
        rw [show ({ sdsDraft db obj attrs with pk := (sdsOrig db model obj obj attrs).pk, draft := false, draft_version := some (sdsDraft db obj attrs).pk } : Row).pk = (sdsOrig db model obj obj attrs).pk from rfl]
        rw [sdsOrig_pk, hPP]
      · rw [applyAttrs_draft]

theorem claim_C1_witness :
    (WF c1db ∧ c1obj.table = Table.course ∧
      objectsGet c1db Table.course c1obj.pk = some c1obj) ∧
    (∃ db1 d o db2 f,
      set_draft_state c1db Table.course c1obj [] [] = some (db1, d, o) ∧
      set_official_state db1 Table.course d [] = some (db2, f) ∧
      f.pk = c1obj.pk ∧ f.draft = false) :=
  ⟨⟨by decide, rfl, by decide⟩,
    claim_C1 c1db Table.course c1obj [] [] [] (by decide) rfl (by decide)⟩

/-! ## C8: URL-slug conflict handling in the publication pipeline -/

/-- **C8.** When setting the course's active URL slug during publication
raises an integrity conflict, the conflict propagates to the caller when
`fail_on_url_slug = True`; with `False` it is suppressed — publication
proceeds past the slug step as if no conflict had occurred, and (when no
official promotion is requested, whose own lookups are outside this claim)
completes normally. -/
theorem claim_C8 (partner : Partner) (resp : EcomResponse) (db : DB)
    (pcr : PubCourseRun) (create_official : Bool)
    (db1 : DB) (c drun : Row) (created : Bool)
    (hU : publishUpsertPhase partner resp db pcr create_official =
      .ok (db1, c, drun, created))
    (hS : set_active_url_slug db1 c pcr.course.url_slug = .error .IntegrityError) :
    publish_to_course_metadata partner resp db pcr create_official true =
      .error .IntegrityError ∧
    publish_to_course_metadata partner resp db pcr create_official false =
      publishSeatsPhase db1 c drun created pcr create_official ∧
    (create_official = false →
      ∃ db2, publish_to_course_metadata partner resp db pcr create_official false =
        .ok db2) := by
  have hpub : ∀ fail : Bool,
      publish_to_course_metadata partner resp db pcr create_official fail =
      (if fail then Except.error Err.IntegrityError
       else publishSeatsPhase db1 c drun created pcr create_official) := by
    intro fail
    unfold publish_to_course_metadata
    rw [hU]
    dsimp only
    unfold slugStep
    rw [hS]
    cases fail
    · rw [if_neg (by exact Bool.false_ne_true)]
      rw [if_neg (by exact Bool.false_ne_true)]
    · rw [if_pos rfl]
      rw [if_pos rfl]
  refine ⟨by rw [hpub true, if_pos rfl], by rw [hpub false, if_neg Bool.false_ne_true], ?_⟩
  intro hco
  rw [hpub false, if_neg Bool.false_ne_true]
  unfold publishSeatsPhase
  rw [hco]
  rw [if_neg Bool.false_ne_true]
  exact ⟨_, rfl⟩

theorem claim_C8_witness :
    (publishUpsertPhase c8partner {} c8db c8pcr false =
        .ok (c8res.1, c8res.2.1, c8res.2.2.1, c8res.2.2.2) ∧
      set_active_url_slug c8res.1 c8res.2.1 c8pcr.course.url_slug =
        .error .IntegrityError) ∧
    publish_to_course_metadata c8partner {} c8db c8pcr false true =
      .error .IntegrityError ∧
    (∃ db2, publish_to_course_metadata c8partner {} c8db c8pcr false false = .ok db2) := by
  have hU : publishUpsertPhase c8partner {} c8db c8pcr false =
      .ok (c8res.1, c8res.2.1, c8res.2.2.1, c8res.2.2.2) := by decide
  have hS : set_active_url_slug c8res.1 c8res.2.1 c8pcr.course.url_slug =
      .error .IntegrityError := by decide
  obtain ⟨h1, _, h3⟩ := claim_C8 c8partner {} c8db c8pcr false c8res.1 c8res.2.1
    c8res.2.2.1 c8res.2.2.2 hU hS
  exact ⟨⟨hU, hS⟩, h1, h3 rfl⟩

theorem nodup_pk_unique {db : DB} (hnd : (db.rows.map Row.pk).Nodup)
    {r s : Row} (hr : r ∈ db.rows) (hs : s ∈ db.rows) (hp : r.pk = s.pk) :
    r = s :=
  List.inj_on_of_nodup_map hnd hr hs hp

theorem officialAt_of_nodup {db : DB} {r : Row}
    (hnd : (db.rows.map Row.pk).Nodup) (hr : r ∈ db.rows) (hd : r.draft = false) :
    OfficialAt db r.pk := by
  intro r2 hr2 hp
  rw [nodup_pk_unique hnd hr2 hr hp]
  exact hd

/-- A save that writes no row the predicate accepts, at a slot where no row
the predicate accepts lives, moves no `find?` result. -/
theorem find?_saveRow_of_pred_false {db : DB} {row : Row} {pred : Row → Bool}
    (hrow : pred row = false)
    (hsafe : ∀ r ∈ db.rows, r.table = row.table → r.pk = row.pk → pred r = false) :
    (saveRow db row).rows.find? pred = db.rows.find? pred := by
  unfold saveRow
  by_cases hany : (db.rows.any fun r =>
      decide (r.table = row.table ∧ r.pk = row.pk)) = true
  · rw [if_pos hany]
    apply find?_map_congr
    intro r hr
    by_cases hc : (decide (r.table = row.table ∧ r.pk = row.pk)) = true
    · rw [decide_eq_true_eq] at hc
      refine ⟨?_, ?_⟩
      · rw [if_pos (by simpa using hc), hrow, hsafe r hr hc.1 hc.2]
      · intro hp
        rw [hsafe r hr hc.1 hc.2] at hp
        cases hp
    · rw [if_neg (by simpa using hc)]
      exact ⟨rfl, fun _ => rfl⟩
  · rw [if_neg hany]
    show (db.rows ++ [row]).find? pred = db.rows.find? pred
    rw [find?_append_single, hrow]
    simp

/-- Replacing in place keeps the primary-key column of the table intact. -/
theorem pks_saveRow_replace {db : DB} {row : Row}
    (hex : ∃ r ∈ db.rows, r.table = row.table ∧ r.pk = row.pk) :
    (saveRow db row).rows.map Row.pk = db.rows.map Row.pk := by
  rw [saveRow_replace hex]
  show (db.rows.map _).map Row.pk = _
  rw [List.map_map]
  apply List.map_congr_left
  intro r _
  by_cases hc : (decide (r.table = row.table ∧ r.pk = row.pk)) = true
  · rw [decide_eq_true_eq] at hc
    show (if _ then row else r).pk = r.pk
    rw [if_pos (by simpa using hc), hc.2]
  · show (if _ then row else r).pk = r.pk
    rw [if_neg (by simpa using hc)]

theorem nodup_pks_saveRow {db : DB} {row : Row}
    (hnd : (db.rows.map Row.pk).Nodup)
    (h : (∃ r ∈ db.rows, r.table = row.table ∧ r.pk = row.pk) ∨ row.pk = freshPk db) :
    ((saveRow db row).rows.map Row.pk).Nodup := by
  rcases h with hex | hf
  · rw [pks_saveRow_replace hex]
    exact hnd
  · rw [saveRow_insert fun r hr hc =>
      absurd (hc.2.trans hf) (Nat.ne_of_lt (pk_lt_freshPk_of_mem hr))]
    show ((db.rows ++ [row]).map Row.pk).Nodup
    rw [List.map_append]
    rw [List.nodup_append]
    refine ⟨hnd, List.nodup_singleton _, ?_⟩
    intro p hp hp1
    simp only [List.map_cons, List.map_nil, List.mem_singleton] at hp1
    obtain ⟨r, hr, hrp⟩ := List.mem_map.mp hp
    exact absurd ((hrp.trans hp1).trans hf) (Nat.ne_of_lt (pk_lt_freshPk_of_mem hr))

/-- A save never vacates an occupied `(table, pk)` slot. -/
theorem rowAt_saveRow {db : DB} (row : Row) {t : Table} {p : Nat}
    (h : RowAt db t p) : RowAt (saveRow db row) t p := by
  obtain ⟨r, hr, ht, hp⟩ := h
  unfold saveRow
  by_cases hany : (db.rows.any fun r =>
      decide (r.table = row.table ∧ r.pk = row.pk)) = true
  · rw [if_pos hany]
    by_cases hc : (decide (r.table = row.table ∧ r.pk = row.pk)) = true
    · rw [decide_eq_true_eq] at hc
      refine ⟨row, ?_, hc.1 ▸ ht, hc.2 ▸ hp⟩
      show row ∈ db.rows.map _
      exact List.mem_map.mpr ⟨r, hr, by rw [if_pos (by simpa using hc)]⟩
    · refine ⟨r, ?_, ht, hp⟩
      show r ∈ db.rows.map _
      exact List.mem_map.mpr ⟨r, hr, by rw [if_neg (by simpa using hc)]⟩
  · rw [if_neg hany]
    exact ⟨r, List.mem_append_left _ hr, ht, hp⟩

/-- Saving an official row never vacates an officially occupied slot. -/
theorem slot_saveRow {db : DB} {row : Row} (hrow : row.draft = false)
    {t : Table} {p : Nat} (h : Slot db t p) : Slot (saveRow db row) t p := by
  obtain ⟨r, hr, ht, hp, hd⟩ := h
  unfold saveRow
  by_cases hany : (db.rows.any fun r =>
      decide (r.table = row.table ∧ r.pk = row.pk)) = true
  · rw [if_pos hany]
    by_cases hc : (decide (r.table = row.table ∧ r.pk = row.pk)) = true
    · rw [decide_eq_true_eq] at hc
      refine ⟨row, ?_, hc.1 ▸ ht, hc.2 ▸ hp, hrow⟩
      show row ∈ db.rows.map _
      exact List.mem_map.mpr ⟨r, hr, by rw [if_pos (by simpa using hc)]⟩
    · refine ⟨r, ?_, ht, hp, hd⟩
      show r ∈ db.rows.map _
      exact List.mem_map.mpr ⟨r, hr, by rw [if_neg (by simpa using hc)]⟩
  · rw [if_neg hany]
    exact ⟨r, List.mem_append_left _ hr, ht, hp, hd⟩

theorem saveRow_mem_self (db : DB) (row : Row) : row ∈ (saveRow db row).rows := by
  unfold saveRow
  by_cases hany : (db.rows.any fun r =>
      decide (r.table = row.table ∧ r.pk = row.pk)) = true
  · rw [if_pos hany]
    obtain ⟨r, hr, hc⟩ := List.any_eq_true.mp hany
    show row ∈ db.rows.map _
    exact List.mem_map.mpr ⟨r, hr, by rw [if_pos hc]⟩
  · rw [if_neg hany]
    exact List.mem_append_right _ (List.mem_singleton.mpr rfl)

/-- If some entry satisfying `pred` is present and every replaced entry
becomes `new` (which satisfies `pred`), the map-replace leaves `find?`
returning `new` whenever the first `pred`-hit is itself replaced. -/
theorem find?_map_replace_found {l : List Row} {pred cond : Row → Bool}
    {st new : Row}
    (hf : l.find? pred = some st) (hst : cond st = true) (hnew : pred new = true) :
    (l.map fun r => if cond r then new else r).find? pred = some new := by
  induction l with
  | nil => cases hf
  | cons a l ih =>
    cases hpa : pred a with
    | true =>
      rw [List.find?_cons_of_pos _ hpa] at hf
      injection hf with h
      subst h
      rw [List.map_cons, if_pos hst, List.find?_cons_of_pos _ hnew]
    | false =>
      rw [List.find?_cons_of_neg _ (by simp [hpa])] at hf
      rw [List.map_cons]
      by_cases hca : cond a = true
      · rw [if_pos hca, List.find?_cons_of_pos _ hnew]
      · rw [if_neg hca, List.find?_cons_of_neg _ (by simp [hpa])]
        exact ih hf

theorem seatKey_draft {run_pk : Nat} {t cur : String} {r : Row}
    (h : seatKey run_pk t cur r = true) : r.draft = true := by
  unfold seatKey at h
  simp only [decide_eq_true_eq] at h
  exact h.2.2.2.2

/-- After the upsert, the first draft seat under the key carries the
submitted price (and deadline). -/
theorem upsert_seat_found {db : DB} {run_pk : Nat} {t cur : String}
    {p : Int} {dl : Option Nat} :
    ∃ r, (update_or_create_seat db run_pk t cur p dl).rows.find?
        (seatKey run_pk t cur) = some r ∧
      r.price = p ∧ r.upgrade_deadline = dl := by
  unfold update_or_create_seat
  cases hf : db.rows.find? (seatKey run_pk t cur) with
  | some st =>
    have hp := (find?_mem_of_eq_some hf).2
    unfold seatKey at hp
    simp only [decide_eq_true_eq] at hp
    have hmem := (find?_mem_of_eq_some hf).1
    have hany : (db.rows.any fun r => decide (r.table =
        ({ st with price := p, upgrade_deadline := dl } : Row).table ∧
        r.pk = ({ st with price := p, upgrade_deadline := dl } : Row).pk)) = true :=
      List.any_eq_true.mpr ⟨st, hmem, by simp⟩
    refine ⟨{ st with price := p, upgrade_deadline := dl }, ?_, rfl, rfl⟩
    dsimp only
    unfold saveRow
    rw [if_pos hany]
    show ((db.rows.map _).find? _) = _
    apply find?_map_replace_found hf
    · simp
    · unfold seatKey
      simp only [decide_eq_true_eq]
      exact ⟨hp.1, hp.2.1, hp.2.2.1, hp.2.2.2.1, hp.2.2.2.2⟩
  | none =>
    dsimp only
    refine ⟨{ table := Table.seat, pk := freshPk db, course_run := some run_pk,
                typeSlug := t, currency := cur, draft := true, price := p,
                upgrade_deadline := dl }, ?_, rfl, rfl⟩
    rw [saveRow_fresh rfl]
    show ((db.rows ++ [_]).find? _) = some _
    rw [find?_append_single, hf]
    rw [if_pos (by unfold seatKey; simp)]
    rfl

/-- The upsert touches no draft seat under a different `(type, currency)`
key of the same run. -/
theorem upsert_seat_preserve {db : DB} {run_pk : Nat} {t cur t2 cur2 : String}
    {p : Int} {dl : Option Nat}
    (hnd : (db.rows.map Row.pk).Nodup)
    (hne : t2 ≠ t ∨ cur2 ≠ cur) :
    (update_or_create_seat db run_pk t cur p dl).rows.find? (seatKey run_pk t2 cur2)
      = db.rows.find? (seatKey run_pk t2 cur2) := by
  unfold update_or_create_seat
  cases hf : db.rows.find? (seatKey run_pk t cur) with
  | some st =>
    obtain ⟨hmem, hp⟩ := find?_mem_of_eq_some hf
    unfold seatKey at hp
    simp only [decide_eq_true_eq] at hp
    apply find?_saveRow_of_pred_false
    · unfold seatKey
      simp only [decide_eq_false_iff_not, not_and]
      intro _ _ ht2 hc2 _
      rcases hne with hh | hh
      · exact hh (ht2.symm.trans hp.2.2.1)
      · exact hh (hc2.symm.trans hp.2.2.2.1)
    · intro r hr _ hpk
      have hrst : r = st := nodup_pk_unique hnd hr hmem hpk
      subst hrst
      unfold seatKey
      simp only [decide_eq_false_iff_not, not_and]
      intro _ _ ht2 hc2 _
      rcases hne with hh | hh
      · exact hh (ht2.symm.trans hp.2.2.1)
      · exact hh (hc2.symm.trans hp.2.2.2.1)
  | none =>
    dsimp only
    apply find?_saveRow_of_pred_false
    · unfold seatKey
      simp only [decide_eq_false_iff_not, not_and]
      intro _ _ ht2 hc2 _
      rcases hne with hh | hh
      · exact hh ht2.symm
      · exact hh hc2.symm
    · intro r hr _ hpk
      exact absurd hpk (Nat.ne_of_lt (pk_lt_freshPk_of_mem hr))

theorem nodup_pks_upsert_seat {db : DB} {run_pk : Nat} {t cur : String}
    {p : Int} {dl : Option Nat} (hnd : (db.rows.map Row.pk).Nodup) :
    ((update_or_create_seat db run_pk t cur p dl).rows.map Row.pk).Nodup := by
  unfold update_or_create_seat
  cases hf : db.rows.find? (seatKey run_pk t cur) with
  | some st =>
    exact nodup_pks_saveRow hnd (Or.inl ⟨st, (find?_mem_of_eq_some hf).1, rfl, rfl⟩)
  | none =>
    exact nodup_pks_saveRow hnd (Or.inr rfl)

theorem rowAt_upsert_seat {db : DB} {run_pk : Nat} {t cur : String}
    {p : Int} {dl : Option Nat} {tb : Table} {q : Nat}
    (h : RowAt db tb q) :
    RowAt (update_or_create_seat db run_pk t cur p dl) tb q := by
  unfold update_or_create_seat
  cases db.rows.find? (seatKey run_pk t cur) with
  | some st => exact rowAt_saveRow _ h
  | none => exact rowAt_saveRow _ h

theorem nodup_pks_upsertSeatStep {run_pk : Nat} {db : DB} {s : PubSeat}
    (hnd : (db.rows.map Row.pk).Nodup) :
    ((upsertSeatStep run_pk db s).rows.map Row.pk).Nodup := by
  unfold upsertSeatStep
  cases s.masters_track
  · exact nodup_pks_upsert_seat hnd
  · exact nodup_pks_upsert_seat (nodup_pks_upsert_seat hnd)

theorem rowAt_upsertSeatStep {run_pk : Nat} {db : DB} {s : PubSeat}
    {tb : Table} {q : Nat} (h : RowAt db tb q) :
    RowAt (upsertSeatStep run_pk db s) tb q := by
  unfold upsertSeatStep
  cases s.masters_track
  · exact rowAt_upsert_seat h
  · exact rowAt_upsert_seat (rowAt_upsert_seat h)

theorem upsertSeatStep_self {run_pk : Nat} {db : DB} {s : PubSeat}
    (hnd : (db.rows.map Row.pk).Nodup)
    (hm : s.masters_track = true) (hnm : s.typeSlug ≠ MASTERS) :
    seatInv (upsertSeatStep run_pk db s) run_pk s := by
  unfold upsertSeatStep
  rw [hm, if_pos rfl]
  constructor
  · rw [upsert_seat_preserve (nodup_pks_upsert_seat hnd) (Or.inl hnm)]
    obtain ⟨r, h1, h2, _⟩ := @upsert_seat_found db run_pk s.typeSlug s.currency
      s.price s.calculated_upgrade_deadline
    exact ⟨r, h1, h2⟩
  · obtain ⟨r, h1, h2, _⟩ := @upsert_seat_found
      (update_or_create_seat db run_pk s.typeSlug s.currency s.price
        s.calculated_upgrade_deadline)
      run_pk MASTERS s.currency s.price s.calculated_upgrade_deadline
    exact ⟨r, h1, h2⟩

theorem upsertSeatStep_disj {run_pk : Nat} {db : DB} {s2 s : PubSeat}
    (hnd : (db.rows.map Row.pk).Nodup) (hdisj : SeatDisj s2 s)
    (hinv : seatInv db run_pk s) :
    seatInv (upsertSeatStep run_pk db s2) run_pk s := by
  obtain ⟨hd1, hd2, hd3⟩ := hdisj
  have hne1 : s.typeSlug ≠ s2.typeSlug ∨ s.currency ≠ s2.currency := by
    rcases hd1 with h | h
    · exact Or.inl (Ne.symm h)
    · exact Or.inr (Ne.symm h)
  have hne2 : MASTERS ≠ s2.typeSlug ∨ s.currency ≠ s2.currency := by
    rcases hd2 with h | h
    · exact Or.inl (Ne.symm h)
    · exact Or.inr (Ne.symm h)
  unfold upsertSeatStep
  cases hm2 : s2.masters_track with
  | false =>
    rw [if_neg Bool.false_ne_true]
    exact ⟨by rw [upsert_seat_preserve hnd hne1]; exact hinv.1,
           by rw [upsert_seat_preserve hnd hne2]; exact hinv.2⟩
  | true =>
    rw [if_pos rfl]
    have hcur : s.currency ≠ s2.currency := Ne.symm (hd3 hm2)
    constructor
    · rw [upsert_seat_preserve (nodup_pks_upsert_seat hnd) (Or.inr hcur),
        upsert_seat_preserve hnd hne1]
      exact hinv.1
    · rw [upsert_seat_preserve (nodup_pks_upsert_seat hnd) (Or.inr hcur),
        upsert_seat_preserve hnd hne2]
      exact hinv.2

theorem seatFold_inv {run_pk : Nat} {s : PubSeat}
    (hm : s.masters_track = true) (hnm : s.typeSlug ≠ MASTERS)
    (l : List PubSeat) :
    ∀ (db : DB), (db.rows.map Row.pk).Nodup → seatInv db run_pk s →
      (∀ s2 ∈ l, s2 = s ∨ SeatDisj s2 s) →
      seatInv (l.foldl (upsertSeatStep run_pk) db) run_pk s ∧
      ((l.foldl (upsertSeatStep run_pk) db).rows.map Row.pk).Nodup := by
  induction l with
  | nil =>
    intro db hnd hinv _
    exact ⟨hinv, hnd⟩
  | cons s2 l ih =>
    intro db hnd hinv hl
    rw [List.foldl_cons]
    have hstep : seatInv (upsertSeatStep run_pk db s2) run_pk s := by
      rcases hl s2 (List.mem_cons_self _ _) with heq | hdisj
      · subst heq
        exact upsertSeatStep_self hnd hm hnm
      · exact upsertSeatStep_disj hnd hdisj hinv
    exact ih _ (nodup_pks_upsertSeatStep hnd) hstep
      fun s3 h3 => hl s3 (List.mem_cons_of_mem _ h3)

theorem seatFold_nodup {run_pk : Nat} (l : List PubSeat) :
    ∀ db : DB, (db.rows.map Row.pk).Nodup →
      ((l.foldl (upsertSeatStep run_pk) db).rows.map Row.pk).Nodup := by
  induction l with
  | nil => exact fun _ h => h
  | cons s2 l ih =>
    intro db hnd
    rw [List.foldl_cons]
    exact ih _ (nodup_pks_upsertSeatStep hnd)

theorem seatFold_rowAt {run_pk : Nat} (l : List PubSeat) :
    ∀ (db : DB) {tb : Table} {q : Nat}, RowAt db tb q →
      RowAt (l.foldl (upsertSeatStep run_pk) db) tb q := by
  induction l with
  | nil => exact fun _ _ _ h => h
  | cons s2 l ih =>
    intro db tb q h
    rw [List.foldl_cons]
    exact ih _ (rowAt_upsertSeatStep h)

theorem rows_foldl_m2mSetGet (model : Table) (p q : Nat) (l : List String)
    (db : DB) :
    (l.foldl (fun db f => m2mSet db model p f (m2mGet db model q f)) db).rows
      = db.rows := by
  induction l generalizing db with
  | nil => rfl
  | cons f l ih =>
    rw [List.foldl_cons, ih]
    rfl

theorem saveRow_rows_congr {db1 db2 : DB} (h : db1.rows = db2.rows) (row : Row) :
    (saveRow db1 row).rows = (saveRow db2 row).rows := by
  unfold saveRow
  by_cases hany : (db2.rows.any fun r =>
      decide (r.table = row.table ∧ r.pk = row.pk)) = true
  · rw [if_pos (by rw [h]; exact hany), if_pos hany]
    show db1.rows.map _ = db2.rows.map _
    rw [h]
  · rw [if_neg (by rw [h]; exact hany), if_neg hany]
    show db1.rows ++ _ = db2.rows ++ _
    rw [h]

theorem slot_of_rows_eq {db1 db2 : DB} (h : db1.rows = db2.rows)
    {t : Table} {p : Nat} (hs : Slot db1 t p) : Slot db2 t p := by
  unfold Slot at hs ⊢
  rw [← h]
  exact hs

/-- Saving an official row — in place over an officially occupied slot, or as
a fresh insert — moves no draft-selecting `find?`, keeps primary keys unique,
and vacates no officially occupied slot. -/
theorem save_official_preserves {db : DB} {row : Row} {pred : Row → Bool}
    (hpred : ∀ r, pred r = true → r.draft = true)
    (hnd : (db.rows.map Row.pk).Nodup)
    (hrd : row.draft = false)
    (hk : (∃ r ∈ db.rows, r.table = row.table ∧ r.pk = row.pk ∧ r.draft = false) ∨
          row.pk = freshPk db) :
    (saveRow db row).rows.find? pred = db.rows.find? pred ∧
      ((saveRow db row).rows.map Row.pk).Nodup ∧
      ∀ t p, Slot db t p → Slot (saveRow db row) t p := by
  refine ⟨?_, ?_, fun t p => slot_saveRow hrd⟩
  · apply find?_saveRow_of_pred_false
    · cases hq : pred row with
      | false => rfl
      | true =>
        exact absurd (hpred row hq) (by rw [hrd]; exact Bool.false_ne_true)
    · intro r hr _ hp
      rcases hk with ⟨w, hw, _, hwp, hwd⟩ | hf
      · have hrw : r = w := nodup_pk_unique hnd hr hw (hp.trans hwp.symm)
        cases hq : pred r with
        | false => rfl
        | true =>
          exact absurd (hpred r hq) (by rw [hrw, hwd]; exact Bool.false_ne_true)
      · exact absurd (hp.trans hf) (Nat.ne_of_lt (pk_lt_freshPk_of_mem hr))
  · apply nodup_pks_saveRow hnd
    rcases hk with ⟨w, hw, hwt, hwp, _⟩ | hf
    · exact Or.inl ⟨w, hw, hwt, hwp⟩
    · exact Or.inr hf

/-- The tail of the draft branch of `set_official_state` — the save of the
promoted row, the many-to-many copy, and the optional attribute save — moves
no draft-selecting `find?`, keeps keys unique and official slots occupied. -/
theorem sos_tail_preserves {db : DB} {model : Table} {dvpk : Nat}
    {attrs : List (String × AttrValue)} {pred : Row → Bool}
    (hpred : ∀ r, pred r = true → r.draft = true)
    (hnd : (db.rows.map Row.pk).Nodup)
    (L : Row) (hLd : L.draft = false)
    (hk : (∃ r ∈ db.rows, r.table = L.table ∧ r.pk = L.pk ∧ r.draft = false) ∨
          L.pk = freshPk db)
    {dbx : DB} {fx : Row}
    (h : (if attrs.isEmpty then
            some ((m2mFields model).foldl
              (fun db f => m2mSet db model L.pk f (m2mGet db model dvpk f))
              (saveRow db L), L)
          else
            some (saveRow ((m2mFields model).foldl
                (fun db f => m2mSet db model L.pk f (m2mGet db model dvpk f))
                (saveRow db L)) (applyAttrs L attrs), applyAttrs L attrs))
         = some (dbx, fx)) :
    dbx.rows.find? pred = db.rows.find? pred ∧
      (dbx.rows.map Row.pk).Nodup ∧
      ∀ t p, Slot db t p → Slot dbx t p := by
  have hrows := rows_foldl_m2mSetGet model L.pk dvpk (m2mFields model) (saveRow db L)
  obtain ⟨p1, p2, p3⟩ := save_official_preserves hpred hnd hLd hk
  by_cases hattrs : attrs.isEmpty = true
  · rw [if_pos hattrs] at h
    injection h with h1
    injection h1 with hdb hfx
    subst hdb
    simp only [Slot]
    rw [hrows]
    refine ⟨p1, p2, fun t p hs => ?_⟩
    exact p3 t p hs
  · rw [if_neg hattrs] at h
    injection h with h1
    injection h1 with hdb hfx
    subst hdb
    simp only [Slot]
    rw [saveRow_rows_congr hrows]
    obtain ⟨q1, q2, q3⟩ := save_official_preserves hpred p2
      ((applyAttrs_draft L attrs).trans hLd)
      (Or.inl ⟨L, saveRow_mem_self db L, (applyAttrs_table L attrs).symm,
        (applyAttrs_pk L attrs).symm, hLd⟩)
    refine ⟨q1.trans p1, q2, fun t p hs => ?_⟩
    exact q3 t p (p3 t p hs)

/-- `set_official_state` writes only official rows: it moves no
draft-selecting `find?`, keeps primary keys unique, and vacates no
officially occupied slot. -/
theorem sos_preserves {db : DB} {model : Table} {obj : Row}
    {attrs : List (String × AttrValue)} {pred : Row → Bool} {db2 : DB} {f : Row}
    (hpred : ∀ r, pred r = true → r.draft = true)
    (hnd : (db.rows.map Row.pk).Nodup)
    (hTm : obj.table = model)
    (hmem : obj.draft = false → Slot db obj.table obj.pk)
    (h : set_official_state db model obj attrs = some (db2, f)) :
    db2.rows.find? pred = db.rows.find? pred ∧
      (db2.rows.map Row.pk).Nodup ∧
      ∀ t p, Slot db t p → Slot db2 t p := by
  unfold set_official_state at h
  cases hd : obj.draft with
  | false =>
    rw [hd, if_neg Bool.false_ne_true] at h
    dsimp only at h
    by_cases hattrs : attrs.isEmpty = true
    · rw [if_pos hattrs] at h
      injection h with h1
      injection h1 with hdb hf
      subst hdb
      exact ⟨rfl, hnd, fun _ _ => id⟩
    · rw [if_neg hattrs] at h
      injection h with h1
      injection h1 with hdb hf
      subst hdb
      obtain ⟨w, hw, hwt, hwp, hwd⟩ := hmem hd
      exact save_official_preserves hpred hnd ((applyAttrs_draft obj attrs).trans hd)
        (Or.inl ⟨w, hw, hwt.trans (applyAttrs_table obj attrs).symm,
          hwp.trans (applyAttrs_pk obj attrs).symm, hwd⟩)
  | true =>
    rw [hd, if_pos rfl] at h
    dsimp only at h
    cases hdv : everythingGet db model obj.pk with
    | none =>
      rw [hdv] at h
      simp at h
    | some dv =>
      rw [hdv] at h
      dsimp only at h
      cases ho : official_version db model obj with
      | some o =>
        rw [ho] at h
        dsimp only at h
        obtain ⟨hom, hop⟩ := find?_mem_of_eq_some ho
        simp only [decide_eq_true_eq] at hop
        refine sos_tail_preserves hpred hnd _ ?_ ?_ h
        · split <;> rfl
        · left
          refine ⟨o, hom, ?_, ?_, hop.2.1⟩
          · split <;> exact hop.1.trans hTm.symm
          · split <;> rfl
      | none =>
        rw [ho] at h
        dsimp only at h
        refine sos_tail_preserves hpred hnd _ ?_ ?_ h
        · split <;> rfl
        · right
          split <;> rfl

/-- A fold of `set_official_state` promotions over a snapshot list preserves
draft-selecting `find?`s, key uniqueness, and official slots. -/
theorem sos_fold_preserves {model : Table} {attrs : List (String × AttrValue)}
    {pred : Row → Bool}
    (hpred : ∀ r, pred r = true → r.draft = true)
    (objs : List Row) :
    ∀ {db db2 : DB},
      (db.rows.map Row.pk).Nodup →
      (∀ o ∈ objs, o.table = model ∧ (o.draft = false → Slot db o.table o.pk)) →
      objs.foldlM (fun db s =>
          (set_official_state db model s attrs).map Prod.fst) db = some db2 →
      db2.rows.find? pred = db.rows.find? pred ∧
        (db2.rows.map Row.pk).Nodup ∧
        ∀ t p, Slot db t p → Slot db2 t p := by
  induction objs with
  | nil =>
    intro db db2 hnd _ h
    rw [List.foldlM_nil] at h
    injection h with hdb
    subst hdb
    exact ⟨rfl, hnd, fun _ _ => id⟩
  | cons o objs ih =>
    intro db db2 hnd hl h
    rw [List.foldlM_cons] at h
    cases hso : set_official_state db model o attrs with
    | none =>
      rw [hso] at h
      simp at h
    | some pr =>
      obtain ⟨dbA, f0⟩ := pr
      rw [hso] at h
      have h2 : objs.foldlM (fun db s =>
          (set_official_state db model s attrs).map Prod.fst) dbA = some db2 := h
      obtain ⟨pA, ndA, slotA⟩ := sos_preserves hpred hnd
        (hl o (List.mem_cons_self _ _)).1
        (fun hdo => (hl o (List.mem_cons_self _ _)).2 hdo) hso
      obtain ⟨pB, ndB, slotB⟩ := ih ndA
        (fun o2 h2m => ⟨(hl o2 (List.mem_cons_of_mem _ h2m)).1,
          fun hdo2 => slotA _ _ ((hl o2 (List.mem_cons_of_mem _ h2m)).2 hdo2)⟩) h2
      exact ⟨pB.trans pA, ndB, fun t p hs => slotB t p (slotA t p hs)⟩

/-- The promotion to official versions only writes official rows: it moves no
draft-selecting `find?` and keeps primary keys unique. -/
theorem promotion_preserves {db : DB} {run : Row} (pred : Row → Bool) {db2 : DB}
    (hpred : ∀ r, pred r = true → r.draft = true)
    (hnd : (db.rows.map Row.pk).Nodup)
    (hrT : run.table = Table.courseRun) (hrD : run.draft = true)
    (h : update_or_create_official_version db run = some db2) :
    db2.rows.find? pred = db.rows.find? pred ∧ (db2.rows.map Row.pk).Nodup := by
  unfold update_or_create_official_version at h
  cases hcc : run.course.bind (everythingGet db Table.course) with
  | none =>
    rw [hcc] at h
    simp at h
  | some course =>
    rw [hcc] at h
    dsimp only at h
    have hcm : course ∈ db.rows ∧ course.table = Table.course := by
      cases hrc : run.course with
      | none =>
        rw [hrc] at hcc
        simp at hcc
      | some cpk =>
        rw [hrc] at hcc
        have hm := everythingGet_mem
          (show everythingGet db Table.course cpk = some course from hcc)
        exact ⟨hm.1, hm.2.1⟩
    cases h1 : set_official_state db Table.course course [] with
    | none =>
      rw [h1] at h
      simp at h
    | some prA =>
      obtain ⟨dbA, oc⟩ := prA
      rw [h1] at h
      dsimp only at h
      obtain ⟨pA, ndA, slotA⟩ := sos_preserves hpred hnd hcm.2
        (fun hcd => ⟨course, hcm.1, rfl, rfl, hcd⟩) h1
      cases h2 : set_official_state dbA Table.courseRun run
          [("course", AttrValue.vPk oc.pk)] with
      | none =>
        rw [h2] at h
        simp at h
      | some prB =>
        obtain ⟨dbB, orun⟩ := prB
        rw [h2] at h
        dsimp only at h
        obtain ⟨pB, ndB, slotB⟩ := sos_preserves hpred ndA hrT
          (fun hfd => absurd (hrD.symm.trans hfd) (by decide)) h2
        cases h3 : (seatsOfRun dbB run.pk).foldlM (fun db s =>
            (set_official_state db Table.seat s
              [("course_run", AttrValue.vPk orun.pk)]).map Prod.fst) dbB with
        | none =>
          rw [h3] at h
          simp at h
        | some dbC =>
          rw [h3] at h
          dsimp only at h
          obtain ⟨pC, ndC, slotC⟩ := sos_fold_preserves hpred _ ndB
            (fun o ho => by
              have hmf := List.mem_filter.mp ho
              simp only [decide_eq_true_eq] at hmf
              exact ⟨hmf.2.1, fun hdo => ⟨o, hmf.1, rfl, rfl, hdo⟩⟩) h3
          obtain ⟨pD, ndD, _⟩ := sos_fold_preserves hpred _ ndC
            (fun o ho => by
              have hmf := List.mem_filter.mp ho
              simp only [decide_eq_true_eq] at hmf
              exact ⟨hmf.2.1, fun hdo => ⟨o, hmf.1, rfl, rfl, hdo⟩⟩) h
          exact ⟨pD.trans (pC.trans (pB.trans pA)), ndD⟩

theorem seatKey_spec {run_pk : Nat} {t cur : String} {r : Row}
    (h : seatKey run_pk t cur r = true) :
    r.table = Table.seat ∧ r.course_run = some run_pk ∧ r.typeSlug = t ∧
      r.currency = cur ∧ r.draft = true := by
  unfold seatKey at h
  simpa using h

/-- Saving a row of another model never moves a seat-key `find?`. -/
theorem find?_seatKey_saveRow_nonseat {db : DB} {row : Row} {run_pk : Nat}
    {t cur : String} (h : row.table ≠ Table.seat) :
    (saveRow db row).rows.find? (seatKey run_pk t cur)
      = db.rows.find? (seatKey run_pk t cur) := by
  apply find?_saveRow_of_pred_false
  · cases hq : seatKey run_pk t cur row with
    | false => rfl
    | true => exact absurd (seatKey_spec hq).1 h
  · intro r hr ht _
    cases hq : seatKey run_pk t cur r with
    | false => rfl
    | true => exact absurd (ht.symm.trans (seatKey_spec hq).1) h

/-- The optional promotion at the end of the publication pipeline keeps both
seat-key `find?` facts, so the two synthesized draft seat rows survive to the
final state. -/
theorem c7_final_phase {dbk db2 : DB} {drun : Row} {s : PubSeat}
    {create_official : Bool}
    (hdT : drun.table = Table.courseRun) (hdD : drun.draft = true)
    (hnm : s.typeSlug ≠ MASTERS)
    (inv : seatInv dbk drun.pk s) (nd : (dbk.rows.map Row.pk).Nodup)
    (h : (if create_official then
            match update_or_create_official_version dbk drun with
            | some db => Except.ok db
            | none => Except.error Err.DoesNotExist
          else Except.ok dbk) = Except.ok db2) :
    ∃ r1 ∈ db2.rows, ∃ r2 ∈ db2.rows, r1 ≠ r2 ∧
      r1.table = Table.seat ∧ r2.table = Table.seat ∧
      r1.draft = true ∧ r2.draft = true ∧
      r1.course_run = some drun.pk ∧ r2.course_run = some drun.pk ∧
      r1.typeSlug = s.typeSlug ∧ r2.typeSlug = MASTERS ∧
      r1.currency = s.currency ∧ r2.currency = s.currency ∧
      r1.price = s.price ∧ r2.price = s.price := by
  have hinv2 : seatInv db2 drun.pk s := by
    cases create_official with
    | false =>
      rw [if_neg Bool.false_ne_true] at h
      injection h with hdb
      subst hdb
      exact inv
    | true =>
      rw [if_pos rfl] at h
      cases hpro : update_or_create_official_version dbk drun with
      | none =>
        rw [hpro] at h
        exact Except.noConfusion h
      | some dbF =>
        rw [hpro] at h
        injection h with hdb
        subst hdb
        refine ⟨?_, ?_⟩
        · obtain ⟨pres, _⟩ := promotion_preserves
            (seatKey drun.pk s.typeSlug s.currency)
            (fun _ hq => seatKey_draft hq) nd hdT hdD hpro
          rw [pres]
          exact inv.1
        · obtain ⟨pres, _⟩ := promotion_preserves
            (seatKey drun.pk MASTERS s.currency)
            (fun _ hq => seatKey_draft hq) nd hdT hdD hpro
          rw [pres]
          exact inv.2
  obtain ⟨r1, hf1, hp1⟩ := hinv2.1
  obtain ⟨r2, hf2, hp2⟩ := hinv2.2
  obtain ⟨hm1, hk1⟩ := find?_mem_of_eq_some hf1
  obtain ⟨hm2, hk2⟩ := find?_mem_of_eq_some hf2
  obtain ⟨ht1, hc1, hts1, hcu1, hd1⟩ := seatKey_spec hk1
  obtain ⟨ht2, hc2, hts2, hcu2, hd2⟩ := seatKey_spec hk2
  refine ⟨r1, hm1, r2, hm2, ?_, ht1, ht2, hd1, hd2, hc1, hc2,
    hts1, hts2, hcu1, hcu2, hp1, hp2⟩
  intro he
  exact hnm (hts1.symm.trans (he ▸ hts2))

/-- **C7** (corrected).  The original claim — every `masters_track` publisher
seat yields two seat rows of its own type and of Masters type sharing price
and currency — fails in two ways (see the counterexample): a Masters-type
`masters_track` seat collapses both upserts into one row, and a later
processed seat hitting the same `(type, currency)` upsert key overwrites the
shared price.  Amended: when the seat's type is not Masters and no other
processed seat writes either of its two upsert keys, a successful
publication's final state holds two distinct draft seat rows on the
discovery course run — one of the seat's type, one Masters — sharing the
seat's price and currency. -/
theorem claim_C7 (partner : Partner) (resp : EcomResponse) (db : DB)
    (pcr : PubCourseRun) (create_official fail_on_url_slug : Bool)
    (db1 db1f db2 : DB) (c drun c2 : Row) (created : Bool) (s : PubSeat)
    (hU : publishUpsertPhase partner resp db pcr create_official
        = Except.ok (db1, c, drun, created))
    (hS : slugStep db1 c pcr.course.url_slug fail_on_url_slug
        = Except.ok (db1f, c2))
    (hP : publish_to_course_metadata partner resp db pcr create_official
        fail_on_url_slug = Except.ok db2)
    (hnd : (db1f.rows.map Row.pk).Nodup)
    (hcT : c2.table = Table.course)
    (hcAt : RowAt db1f c2.table c2.pk)
    (hdT : drun.table = Table.courseRun) (hdD : drun.draft = true)
    (hs : s ∈ processedSeats pcr) (hm : s.masters_track = true)
    (hnm : s.typeSlug ≠ MASTERS)
    (hdis : ∀ s2 ∈ processedSeats pcr, s2 ≠ s → SeatDisj s2 s) :
    ∃ r1 ∈ db2.rows, ∃ r2 ∈ db2.rows, r1 ≠ r2 ∧
      r1.table = Table.seat ∧ r2.table = Table.seat ∧
      r1.draft = true ∧ r2.draft = true ∧
      r1.course_run = some drun.pk ∧ r2.course_run = some drun.pk ∧
      r1.typeSlug = s.typeSlug ∧ r2.typeSlug = MASTERS ∧
      r1.currency = s.currency ∧ r2.currency = s.currency ∧
      r1.price = s.price ∧ r2.price = s.price := by
  obtain ⟨l1, l2, hsplit⟩ := List.append_of_mem hs
  have ndMid : ((l1.foldl (upsertSeatStep drun.pk) db1f).rows.map Row.pk).Nodup :=
    seatFold_nodup l1 db1f hnd
  have invS : seatInv
      (upsertSeatStep drun.pk (l1.foldl (upsertSeatStep drun.pk) db1f) s)
      drun.pk s :=
    upsertSeatStep_self ndMid hm hnm
  obtain ⟨invT, ndT⟩ := seatFold_inv hm hnm l2 _ (nodup_pks_upsertSeatStep ndMid)
    invS
    (fun s2 h2 => by
      by_cases he : s2 = s
      · exact Or.inl he
      · refine Or.inr (hdis s2 ?_ he)
        rw [hsplit]
        exact List.mem_append_right _ (List.mem_cons_of_mem _ h2))
  have hfold : (processedSeats pcr).foldl (upsertSeatStep drun.pk) db1f
      = l2.foldl (upsertSeatStep drun.pk)
          (upsertSeatStep drun.pk (l1.foldl (upsertSeatStep drun.pk) db1f) s) := by
    rw [hsplit, List.foldl_append, List.foldl_cons]
  have invDBS : seatInv
      ((processedSeats pcr).foldl (upsertSeatStep drun.pk) db1f) drun.pk s := by
    rw [hfold]
    exact invT
  have ndDBS : (((processedSeats pcr).foldl (upsertSeatStep drun.pk)
      db1f).rows.map Row.pk).Nodup :=
    seatFold_nodup (processedSeats pcr) db1f hnd
  have atDBS : RowAt ((processedSeats pcr).foldl (upsertSeatStep drun.pk) db1f)
      c2.table c2.pk :=
    seatFold_rowAt (processedSeats pcr) db1f hcAt
  have hP2 : publishSeatsPhase db1f c2 drun created pcr create_official
      = Except.ok db2 := by
    unfold publish_to_course_metadata at hP
    rw [hU] at hP
    dsimp only at hP
    rw [hS] at hP
    exact hP
  unfold publishSeatsPhase at hP2
  dsimp only at hP2
  cases created with
  | false =>
    rw [if_neg Bool.false_ne_true] at hP2
    exact c7_final_phase hdT hdD hnm invDBS ndDBS hP2
  | true =>
    rw [if_pos rfl] at hP2
    have hnonseat : ({ c2 with canonical_course_run := some drun.pk } : Row).table
        ≠ Table.seat := by
      show c2.table ≠ Table.seat
      rw [hcT]
      decide
    have invK : seatInv
        (saveRow ((processedSeats pcr).foldl (upsertSeatStep drun.pk) db1f)
          { c2 with canonical_course_run := some drun.pk }) drun.pk s := by
      refine ⟨?_, ?_⟩
      · rw [find?_seatKey_saveRow_nonseat hnonseat]
        exact invDBS.1
      · rw [find?_seatKey_saveRow_nonseat hnonseat]
        exact invDBS.2
    have ndK : ((saveRow ((processedSeats pcr).foldl (upsertSeatStep drun.pk) db1f)
        { c2 with canonical_course_run := some drun.pk }).rows.map Row.pk).Nodup := by
      obtain ⟨r, hr, ht, hp⟩ := atDBS
      exact nodup_pks_saveRow ndDBS (Or.inl ⟨r, hr, ht, hp⟩)
    exact c7_final_phase hdT hdD hnm invK ndK hP2

/-- **C7, counterexample to the claim as stated.**  First half: seat `c7seatA`
(verified, 10 USD, masters track) is processed, publication succeeds, yet no
pair of draft seat rows of its type and of Masters type share a price — the
later seat `c7seatB` overwrote the verified price.  Second half: the
Masters-type masters-track seat `c7seatM` is processed, yet the final state
does not even hold two distinct seat rows — both upserts hit the same row. -/
theorem claim_C7_counterexample :
    (publish_to_course_metadata c7partner {} { rows := [] } c7pcr false false
        = Except.ok c7res ∧
      c7seatA ∈ processedSeats c7pcr ∧ c7seatA.masters_track = true ∧
      ¬ ∃ r1 ∈ c7res.rows, ∃ r2 ∈ c7res.rows,
          r1.table = Table.seat ∧ r2.table = Table.seat ∧
          r1.draft = true ∧ r2.draft = true ∧
          r1.typeSlug = c7seatA.typeSlug ∧ r2.typeSlug = MASTERS ∧
          r1.currency = c7seatA.currency ∧ r2.currency = c7seatA.currency ∧
          r1.price = r2.price) ∧
    (publish_to_course_metadata c7partner {} { rows := [] } c7pcrM false false
        = Except.ok c7resM ∧
      c7seatM ∈ processedSeats c7pcrM ∧ c7seatM.masters_track = true ∧
      ¬ ∃ r1 ∈ c7resM.rows, ∃ r2 ∈ c7resM.rows, r1 ≠ r2 ∧
          r1.table = Table.seat ∧ r2.table = Table.seat) := by
  decide

theorem claim_C7_witness :
    ∃ r1 ∈ c7wF.rows, ∃ r2 ∈ c7wF.rows, r1 ≠ r2 ∧
      r1.table = Table.seat ∧ r2.table = Table.seat ∧
      r1.draft = true ∧ r2.draft = true ∧
      r1.course_run = some c7wU.2.2.1.pk ∧ r2.course_run = some c7wU.2.2.1.pk ∧
      r1.typeSlug = c7wseat.typeSlug ∧ r2.typeSlug = MASTERS ∧
      r1.currency = c7wseat.currency ∧ r2.currency = c7wseat.currency ∧
      r1.price = c7wseat.price ∧ r2.price = c7wseat.price :=
  claim_C7 c7partner {} { rows := [] } c7wpcr true true
    c7wU.1 c7wS.1 c7wF c7wU.2.1 c7wU.2.2.1 c7wS.2 c7wU.2.2.2 c7wseat
    (by decide) (by decide) (by decide) (by decide) (by decide) (by decide)
    (by decide) (by decide) (by decide) (by decide) (by decide) (by decide)

theorem objectsGet_eq_find_objKey (db : DB) (t : Table) (p : Nat) :
    objectsGet db t p = db.rows.find? (objKey t p) := rfl

theorem find?_objKey_saveRow_ne {db : DB} {row : Row} {t : Table} {p : Nat}
    (h : ¬(row.table = t ∧ row.pk = p)) :
    (saveRow db row).rows.find? (objKey t p) = db.rows.find? (objKey t p) := by
  apply find?_saveRow_of_pred_false
  · unfold objKey
    simp only [decide_eq_false_iff_not, not_and]
    intro h1 h2 _
    exact h ⟨h1, h2⟩
  · intro r hr ht hp
    unfold objKey
    simp only [decide_eq_false_iff_not, not_and]
    intro h1 h2 _
    exact h ⟨ht.symm.trans h1, hp.symm.trans h2⟩

/-- `set_draft_state` on another model moves no official row of model `t`:
the official lookup is unchanged; the returned draft keeps the object's
model and is a draft. -/
theorem sds_objKey {db dbx : DB} {model : Table} {objx dx ox : Row}
    {attrs : List (String × AttrValue)} {ras : List (String × List Nat)}
    {t : Table} {p : Nat} (hmt : model ≠ t)
    (h : set_draft_state db model objx attrs ras = some (dbx, dx, ox)) :
    dbx.rows.find? (objKey t p) = db.rows.find? (objKey t p) ∧
      dx.table = objx.table ∧ dx.draft = true := by
  cases hog : objectsGet db model objx.pk with
  | none =>
    unfold set_draft_state at h
    rw [hog] at h
    exact Option.noConfusion h
  | some orig =>
    obtain ⟨db1, hspec, hrows⟩ := @set_draft_state_spec db model objx orig
      attrs ras hog
    rw [hspec] at h
    injection h with h1
    injection h1 with hdb h2
    injection h2 with hdx _hox
    subst hdb
    subst hdx
    refine ⟨?_, sdsDraft_table db objx attrs, sdsDraft_draft db objx attrs⟩
    rw [hrows, find?_append_single]
    have hdr : objKey t p (sdsDraft db objx attrs) = false := by
      unfold objKey
      simp only [decide_eq_false_iff_not, not_and]
      intro _ _
      rw [sdsDraft_draft]
      decide
    rw [hdr]
    have hmap : ((db.rows.map fun r =>
        if decide (r.table = model ∧ r.pk = objx.pk) then
          sdsOrig db model objx orig attrs
        else r).find? (objKey t p)) = db.rows.find? (objKey t p) := by
      apply find?_map_congr
      intro r _
      by_cases hc : (decide (r.table = model ∧ r.pk = objx.pk)) = true
      · rw [decide_eq_true_eq] at hc
        have e1 : objKey t p (sdsOrig db model objx orig attrs) = false := by
          unfold objKey
          simp only [decide_eq_false_iff_not, not_and]
          intro hot _ _
          rw [sdsOrig_table] at hot
          exact hmt ((objectsGet_mem hog).2.1.symm.trans hot)
        have e2 : objKey t p r = false := by
          unfold objKey
          simp only [decide_eq_false_iff_not, not_and]
          intro hrt _ _
          exact hmt (hc.1.symm.trans hrt)
        refine ⟨?_, ?_⟩
        · rw [if_pos (by simpa using hc), e1, e2]
        · intro hp
          rw [e2] at hp
          exact Bool.noConfusion hp
      · rw [if_neg (by simpa using hc)]
        exact ⟨rfl, fun _ => rfl⟩
    rw [hmap]
    exact Option.or_none

/-- The editor re-parenting loop touches no course row. -/
theorem editors_fold_objKey {dcpk : Nat} {t : Table} {p : Nat} (l : List Row)
    (hl : ∀ e ∈ l, e.table ≠ t) :
    ∀ db : DB,
      ((l.foldl (fun db ed => saveRow db { ed with course := some dcpk })
          db).rows.find? (objKey t p)) = db.rows.find? (objKey t p) := by
  induction l with
  | nil => exact fun _ => rfl
  | cons e l ih =>
    intro db
    rw [List.foldl_cons]
    rw [ih (fun e2 h2 => hl e2 (List.mem_cons_of_mem _ h2))]
    exact find?_objKey_saveRow_ne
      (fun hc => hl e (List.mem_cons_self _ _) hc.1)

theorem draftSeats_objKey {t : Table} {p : Nat} (ht : Table.seat ≠ t)
    (seats : List Row) :
    ∀ {db db2 : DB} {drpk : Nat} {res : Except Err Unit},
      draftSeats db drpk seats = (db2, res) →
      db2.rows.find? (objKey t p) = db.rows.find? (objKey t p) := by
  induction seats with
  | nil =>
    intro db db2 drpk res h
    unfold draftSeats at h
    injection h with h1 _
    subst h1
    rfl
  | cons seat rest ih =>
    intro db db2 drpk res h
    unfold draftSeats at h
    cases hsds : set_draft_state db Table.seat seat
        [("course_run", AttrValue.vPk drpk)] [] with
    | none =>
      rw [hsds] at h
      injection h with h1 _
      subst h1
      rfl
    | some tr =>
      obtain ⟨dbA, dA, oA⟩ := tr
      rw [hsds] at h
      dsimp only at h
      rw [ih h, (sds_objKey (t := t) (p := p) ht hsds).1]

theorem draftEntitlements_objKey {t : Table} {p : Nat}
    (ht : Table.entitlement ≠ t) (ents : List Row) :
    ∀ {db db2 : DB} {dcpk : Nat} {res : Except Err Unit},
      draftEntitlements db dcpk ents = (db2, res) →
      db2.rows.find? (objKey t p) = db.rows.find? (objKey t p) := by
  induction ents with
  | nil =>
    intro db db2 dcpk res h
    unfold draftEntitlements at h
    injection h with h1 _
    subst h1
    rfl
  | cons ent rest ih =>
    intro db db2 dcpk res h
    unfold draftEntitlements at h
    cases hsds : set_draft_state db Table.entitlement ent
        [("course", AttrValue.vPk dcpk)] [] with
    | none =>
      rw [hsds] at h
      injection h with h1 _
      subst h1
      rfl
    | some tr =>
      obtain ⟨dbA, dA, oA⟩ := tr
      rw [hsds] at h
      dsimp only at h
      rw [ih h, (sds_objKey (t := t) (p := p) ht hsds).1]

/-- The run loop of the Course branch moves no official course row, and its
returned draft course keeps the key, draftness and model of the one passed
in (only slug/canonical fields are updated along the way). -/
theorem draftRuns_objKey {oc : Row} {p : Nat} (runs : List Row)
    (hruns : ∀ r ∈ runs, r.table = Table.courseRun) :
    ∀ {db db2 : DB} {dc : Row} {res : Except Err Row},
      draftRuns oc db dc runs = (db2, res) →
      db2.rows.find? (objKey Table.course p)
          = db.rows.find? (objKey Table.course p) ∧
        ∀ dc2, res = Except.ok dc2 → dc2.pk = dc.pk ∧ dc2.draft = dc.draft ∧
          dc2.table = dc.table := by
  induction runs with
  | nil =>
    intro db db2 dc res h
    unfold draftRuns at h
    injection h with h1 h2
    subst h1
    refine ⟨rfl, fun dc2 hok => ?_⟩
    have h3 := h2.trans hok
    injection h3 with h4
    subst h4
    exact ⟨rfl, rfl, rfl⟩
  | cons run rest ih =>
    intro db db2 dc res h
    have hrunT : run.table = Table.courseRun := hruns run (List.mem_cons_self _ _)
    have hrest : ∀ r ∈ rest, r.table = Table.courseRun :=
      fun r hr => hruns r (List.mem_cons_of_mem _ hr)
    unfold draftRuns at h
    cases hsds : set_draft_state db Table.courseRun run
        [("course", AttrValue.vPk dc.pk)] [] with
    | none =>
      rw [hsds] at h
      injection h with h1 h2
      subst h1
      exact ⟨rfl, fun dc2 hok => Except.noConfusion (h2.trans hok)⟩
    | some tr =>
      obtain ⟨dbA, dA, oA⟩ := tr
      rw [hsds] at h
      dsimp only at h
      obtain ⟨presA, hdAt, _⟩ := sds_objKey (t := Table.course) (p := p)
        (by decide) hsds
      split at h
      next dbC e heq =>
        injection h with h1 h2
        subst h1
        refine ⟨?_, fun dc2 hok => Except.noConfusion (h2.trans hok)⟩
        rw [draftSeats_objKey (by decide) _ heq,
          @find?_objKey_saveRow_ne dbA { dA with slug := oA.slug } Table.course p
            (fun hc =>
              absurd (hrunT.symm.trans (hdAt.symm.trans hc.1)) (by decide)),
          presA]
      next dbC heq =>
        have presC : dbC.rows.find? (objKey Table.course p)
            = db.rows.find? (objKey Table.course p) := by
          rw [draftSeats_objKey (by decide) _ heq,
            @find?_objKey_saveRow_ne dbA { dA with slug := oA.slug } Table.course
              p (fun hc =>
                absurd (hrunT.symm.trans (hdAt.symm.trans hc.1)) (by decide)),
            presA]
        cases hcanon : oc.canonical_course_run with
        | none =>
          rw [hcanon] at h
          dsimp only at h
          obtain ⟨presR, okR⟩ := ih hrest h
          exact ⟨presR.trans presC, okR⟩
        | some cpk =>
          rw [hcanon] at h
          dsimp only at h
          cases hget : everythingGet dbC Table.courseRun cpk with
          | none =>
            rw [hget] at h
            dsimp only at h
            injection h with h1 h2
            subst h1
            exact ⟨presC, fun dc2 hok => Except.noConfusion (h2.trans hok)⟩
          | some canon =>
            rw [hget] at h
            dsimp only at h
            obtain ⟨presR, okR⟩ := ih hrest h
            refine ⟨presR.trans presC, fun dc2 hok => ?_⟩
            obtain ⟨e1, e2, e3⟩ := okR dc2 hok
            refine ⟨e1.trans ?_, e2.trans ?_, e3.trans ?_⟩ <;> (split <;> rfl)

/-- The SKU write-back loop touches only the products it was handed. -/
theorem applySkus_objKey {t : Table} {p : Nat}
    (pairs : List (Row × Option String)) :
    ∀ {db db2 : DB},
      (∀ pr ∈ pairs, pr.1.table ≠ t) →
      applySkus db pairs = Except.ok db2 →
      db2.rows.find? (objKey t p) = db.rows.find? (objKey t p) := by
  induction pairs with
  | nil =>
    intro db db2 _ h
    unfold applySkus at h
    injection h with h1
    subst h1
    rfl
  | cons pr rest ih =>
    intro db db2 hl h
    obtain ⟨dp, skuOpt⟩ := pr
    have hdp : dp.table ≠ t := hl (dp, skuOpt) (List.mem_cons_self _ _)
    have hrest : ∀ pr2 ∈ rest, pr2.1.table ≠ t :=
      fun pr2 h2 => hl pr2 (List.mem_cons_of_mem _ h2)
    unfold applySkus at h
    cases skuOpt with
    | none => exact ih hrest h
    | some sku =>
      dsimp only at h
      by_cases hemp : sku = ""
      · rw [if_pos hemp] at h
        exact ih hrest h
      · rw [if_neg hemp] at h
        have pres1 : (saveRow db (withSku dp sku)).rows.find? (objKey t p)
            = db.rows.find? (objKey t p) :=
          find?_objKey_saveRow_ne (fun hc => hdp hc.1)
        cases hdv : dp.draft_version with
        | none =>
          rw [hdv] at h
          dsimp only at h
          rw [ih hrest h, pres1]
        | some dpk =>
          rw [hdv] at h
          dsimp only at h
          cases hget : everythingGet (saveRow db (withSku dp sku)) dp.table dpk with
          | none =>
            rw [hget] at h
            exact Except.noConfusion h
          | some d =>
            rw [hget] at h
            dsimp only at h
            rw [ih hrest h,
              @find?_objKey_saveRow_ne (saveRow db (withSku dp sku))
                (withSku d sku) t p
                (fun hc => hdp ((everythingGet_mem hget).2.1.symm.trans hc.1)),
              pres1]

/-- The commerce push writes only product rows (seats and entitlements). -/
theorem push_objKey {partner : Partner} {resp : EcomResponse} {db db2 : DB}
    {crun : Row} {res : Except Err Bool} {t : Table} {p : Nat}
    (ht1 : Table.seat ≠ t) (ht2 : Table.entitlement ≠ t)
    (h : push_to_ecommerce_for_course_run partner resp db crun = (db2, res)) :
    db2.rows.find? (objKey t p) = db.rows.find? (objKey t p) := by
  unfold push_to_ecommerce_for_course_run at h
  cases hcc : crun.course.bind (everythingGet db Table.course) with
  | none =>
    rw [hcc] at h
    injection h with h1 _
    subst h1
    rfl
  | some course =>
    rw [hcc] at h
    dsimp only at h
    by_cases hcli : (!partner.has_lms_api_client || partner.ecommerce_api_url.isNone)
        = true
    · rw [if_pos hcli] at h
      injection h with h1 _
      subst h1
      rfl
    · rw [if_neg hcli] at h
      by_cases hemp : (discoveryProducts db crun course).isEmpty = true
      · rw [if_pos hemp] at h
        injection h with h1 _
        subst h1
        rfl
      · rw [if_neg hemp] at h
        by_cases hst : 400 ≤ resp.status_code ∧ resp.status_code < 600
        · rw [if_pos hst] at h
          cases herr : resp.error with
          | some e =>
            rw [herr] at h
            dsimp only at h
            split at h <;> (injection h with h1 _
                            subst h1
                            rfl)
          | none =>
            rw [herr] at h
            dsimp only at h
            injection h with h1 _
            subst h1
            rfl
        · rw [if_neg hst] at h
          by_cases hlen : (discoveryProducts db crun course).length
              = resp.products.length
          · rw [if_pos hlen] at h
            cases hap : applySkus db
                ((discoveryProducts db crun course).zip resp.products) with
            | ok dbS =>
              rw [hap] at h
              dsimp only at h
              injection h with h1 _
              subst h1
              apply applySkus_objKey _ _ hap
              intro pr hpr
              have hm1 : pr.1 ∈ discoveryProducts db crun course :=
                (List.of_mem_zip hpr).1
              unfold discoveryProducts serialize_products at hm1
              rcases List.mem_append.mp hm1 with hm2 | hm2
              · have hf := List.mem_filter.mp hm2
                have hsf := List.mem_filter.mp hf.1
                simp only [decide_eq_true_eq] at hsf
                intro hh
                exact ht1 (hsf.2.1.symm.trans hh)
              · have hf := List.mem_filter.mp hm2
                simp only [decide_eq_true_eq] at hf
                intro hh
                exact ht2 (hf.2.1.symm.trans hh)
            | error e =>
              rw [hap] at h
              dsimp only at h
              injection h with h1 _
              subst h1
              rfl
          · rw [if_neg hlen] at h
            injection h with h1 _
            subst h1
            rfl

/-- `create_missing_entitlement` writes only product rows. -/
theorem cme_objKey {partner : Partner} {resp : EcomResponse} {db db2 : DB}
    {course : Row} {res : Except Err Bool} {t : Table} {p : Nat}
    (ht1 : Table.seat ≠ t) (ht2 : Table.entitlement ≠ t)
    (h : create_missing_entitlement partner resp db course = (db2, res)) :
    db2.rows.find? (objKey t p) = db.rows.find? (objKey t p) := by
  unfold create_missing_entitlement at h
  cases hcalc : calculate_entitlement_for_course db course with
  | none =>
    rw [hcalc] at h
    injection h with h1 _
    subst h1
    rfl
  | some tr =>
    obtain ⟨mode, price, currency⟩ := tr
    rw [hcalc] at h
    dsimp only at h
    have pres1 : (saveRow db
        (newEntitlementRow db course mode price currency)).rows.find? (objKey t p)
        = db.rows.find? (objKey t p) :=
      find?_objKey_saveRow_ne (fun hc => ht2 hc.1)
    by_cases hdr : (!course.draft) = true
    · rw [if_pos hdr] at h
      cases hcan : course.canonical_course_run with
      | none =>
        rw [hcan] at h
        injection h with h1 _
        subst h1
        exact pres1
      | some cpk =>
        rw [hcan] at h
        dsimp only at h
        cases hget : everythingGet
            (saveRow db (newEntitlementRow db course mode price currency))
            Table.courseRun cpk with
        | none =>
          rw [hget] at h
          injection h with h1 _
          subst h1
          exact pres1
        | some crun2 =>
          rw [hget] at h
          dsimp only at h
          rcases hpush : push_to_ecommerce_for_course_run partner resp
              (saveRow db (newEntitlementRow db course mode price currency))
              crun2 with ⟨dbP, resP⟩
          rw [hpush] at h
          cases resP with
          | ok b =>
            dsimp only at h
            injection h with h1 _
            subst h1
            rw [push_objKey ht1 ht2 hpush, pres1]
          | error e =>
            dsimp only at h
            injection h with h1 _
            subst h1
            rw [push_objKey ht1 ht2 hpush, pres1]
    · rw [if_neg hdr] at h
      injection h with h1 _
      subst h1
      exact pres1

/-- The effect of the Course branch of `ensure_draft_world` that idempotence
rests on: after a successful run, the official course row still sits at its
key, now with `draft_version` pointing at a key where the returned draft is
found. -/
theorem draftCourseWorld_spec {partner : Partner} {resp : EcomResponse}
    {db db1 : DB} {obj d : Row}
    (hog : objectsGet db Table.course obj.pk = some obj)
    (h : draftCourseWorld partner resp db obj = (db1, Except.ok d)) :
    ∃ obj1 q, objectsGet db1 Table.course obj.pk = some obj1 ∧
      obj1.draft_version = some q ∧
      everythingGet db1 Table.course q = some d := by
  obtain ⟨hmem, hT, _, hdraft⟩ := objectsGet_mem hog
  obtain ⟨dbS, hspec, hrows⟩ := @set_draft_state_spec db Table.course
    { obj with canonical_course_run := none } obj [] [("url_slug_history", [])]
    hog
  unfold draftCourseWorld at h
  dsimp only at h
  rw [hspec] at h
  dsimp only at h
  have hfindS : dbS.rows.find? (objKey Table.course obj.pk)
      = some (sdsOrig db Table.course { obj with canonical_course_run := none }
          obj []) := by
    rw [hrows, find?_append_single]
    have hdr : objKey Table.course obj.pk
        (sdsDraft db { obj with canonical_course_run := none } []) = false := by
      unfold objKey
      simp only [decide_eq_false_iff_not, not_and]
      intro _ _
      rw [sdsDraft_draft]
      decide
    rw [hdr]
    have hfirst : ((db.rows.map fun r =>
        if decide (r.table = Table.course ∧
            r.pk = ({ obj with canonical_course_run := none } : Row).pk) then
          sdsOrig db Table.course { obj with canonical_course_run := none } obj []
        else r).find? (objKey Table.course obj.pk))
        = some (sdsOrig db Table.course { obj with canonical_course_run := none }
            obj []) := by
      apply find?_map_cond_first
      · exact ⟨obj, hmem, by simp [hT]⟩
      · intro r _ hc
        cases hq : objKey Table.course obj.pk r with
        | false => rfl
        | true =>
          unfold objKey at hq
          simp only [decide_eq_true_eq] at hq
          rw [decide_eq_false_iff_not] at hc
          exact absurd ⟨hq.1, hq.2.1⟩ hc
      · unfold objKey
        simp only [decide_eq_true_eq]
        refine ⟨?_, ?_, ?_⟩
        · rw [sdsOrig_table]
          exact hT
        · rw [sdsOrig_pk]
        · rw [sdsOrig_draft]
          exact hdraft
    rw [hfirst]
    rfl
  split at h
  next dbR e heq =>
    injection h with _ h2
    exact Except.noConfusion h2
  next dbR dc1 heq =>
    obtain ⟨presR, okR⟩ := draftRuns_objKey (p := obj.pk) _
      (fun r hr => by
        have hf := (List.mem_filter.mp hr).2
        simp only [decide_eq_true_eq] at hf
        exact hf.1) heq
    obtain ⟨e1, e2, e3⟩ := okR dc1 rfl
    have hdc1pk : dc1.pk = freshPk db :=
      e1.trans (sdsDraft_pk db { obj with canonical_course_run := none } [])
    have hledit : ∀ e2 ∈ editorsOf dbS
        (sdsOrig db Table.course { obj with canonical_course_run := none }
          obj []).pk, e2.table ≠ Table.course := by
      intro ed hed
      have hf := (List.mem_filter.mp hed).2
      simp only [decide_eq_true_eq] at hf
      rw [hf.1]
      decide
    have hcond : ¬(dc1.table = Table.course ∧ dc1.pk = obj.pk) := by
      intro hc
      exact absurd (hc.2.symm.trans hdc1pk)
        (Nat.ne_of_lt (pk_lt_freshPk_of_mem hmem))
    have htail : ∀ {dbE : DB},
        dbE.rows.find? (objKey Table.course obj.pk)
            = dbR.rows.find? (objKey Table.course obj.pk) →
        (let dbx := saveRow dbE dc1
         match everythingGet dbx Table.course dc1.pk with
         | none => (dbx, Except.error Err.DoesNotExist)
         | some c => (dbx, Except.ok c)) = (db1, Except.ok d) →
        ∃ obj1 q, objectsGet db1 Table.course obj.pk = some obj1 ∧
          obj1.draft_version = some q ∧
          everythingGet db1 Table.course q = some d := by
      intro dbE presEnt hx
      dsimp only at hx
      cases hgetF : everythingGet (saveRow dbE dc1) Table.course dc1.pk with
      | none =>
        rw [hgetF] at hx
        injection hx with _ h2
        exact Except.noConfusion h2
      | some c =>
        rw [hgetF] at hx
        injection hx with h1 h2
        injection h2 with h3
        subst h1
        subst h3
        refine ⟨sdsOrig db Table.course { obj with canonical_course_run := none }
          obj [], dc1.pk, ?_, ?_, hgetF⟩
        · rw [objectsGet_eq_find_objKey,
            @find?_objKey_saveRow_ne dbE dc1 Table.course obj.pk hcond,
            presEnt, presR, editors_fold_objKey _ hledit dbS, hfindS]
        · rw [sdsOrig_dv, hdc1pk]
    by_cases hent : (!(entitlementsOf dbR
        (sdsOrig db Table.course { obj with canonical_course_run := none }
          obj []).pk).isEmpty) = true
    · rw [if_pos hent] at h
      rcases hde : draftEntitlements dbR dc1.pk (entitlementsOf dbR
          (sdsOrig db Table.course { obj with canonical_course_run := none }
            obj []).pk) with ⟨dbE, entRes⟩
      rw [hde] at h
      cases entRes with
      | error e =>
        dsimp only at h
        injection h with _ h2
        exact Except.noConfusion h2
      | ok u =>
        cases u
        dsimp only at h
        exact htail (draftEntitlements_objKey (by decide) _ hde) h
    · rw [if_neg hent] at h
      rcases hcme : create_missing_entitlement partner resp dbR dc1
        with ⟨dbE, resC⟩
      rw [hcme] at h
      cases resC with
      | error e =>
        dsimp only at h
        injection h with _ h2
        exact Except.noConfusion h2
      | ok b =>
        dsimp only at h
        exact htail (cme_objKey (by decide) (by decide) hcme) h

/-- **C2.**  Idempotence of `ensure_draft_world`: an object that is already a
draft is returned unchanged with the database untouched; an official object
whose `draft_version` is set gets that existing draft back with the database
untouched (no new draft rows); and after a first call on an official course
without a draft, the course's official row now resolves — via its updated
`draft_version` — to the very draft the first call returned, so a second call
on it returns the same draft row and leaves the database unchanged. -/
theorem claim_C2 (partner : Partner) (resp : EcomResponse) (db : DB)
    (obj : Row) :
    (obj.draft = true → ensure_draft_world partner resp db obj
        = (db, Except.ok obj)) ∧
    (∀ dv d, obj.draft = false → obj.draft_version = some dv →
      everythingGet db obj.table dv = some d →
      ensure_draft_world partner resp db obj = (db, Except.ok d)) ∧
    (∀ db1 d, obj.table = Table.course → obj.draft_version = none →
      objectsGet db Table.course obj.pk = some obj →
      ensure_draft_world partner resp db obj = (db1, Except.ok d) →
      ∃ obj1, objectsGet db1 Table.course obj.pk = some obj1 ∧
        ensure_draft_world partner resp db1 obj1 = (db1, Except.ok d)) := by
  refine ⟨?_, ?_, ?_⟩
  · intro hd
    unfold ensure_draft_world
    rw [hd, if_pos rfl]
  · intro dv d hd hdv heg
    unfold ensure_draft_world
    rw [hd, if_neg Bool.false_ne_true, hdv]
    dsimp only
    rw [heg]
  · intro db1 d hT hdvn hog h
    have hdr : obj.draft = false := (objectsGet_mem hog).2.2.2
    have hdcw : draftCourseWorld partner resp db obj = (db1, Except.ok d) := by
      unfold ensure_draft_world at h
      rw [hdr, if_neg Bool.false_ne_true, hdvn] at h
      dsimp only at h
      rw [hT] at h
      exact h
    obtain ⟨obj1, q, hfind, hdv1, hget1⟩ := draftCourseWorld_spec hog hdcw
    refine ⟨obj1, hfind, ?_⟩
    have hm := objectsGet_mem hfind
    unfold ensure_draft_world
    rw [hm.2.2.2, if_neg Bool.false_ne_true, hdv1]
    dsimp only
    rw [hm.2.1, hget1]

theorem claim_C2_witness :
    ensure_draft_world c2partner {} c2dbL c2draft = (c2dbL, Except.ok c2draft) ∧
    ensure_draft_world c2partner {} c2dbL c2off = (c2dbL, Except.ok c2draft) ∧
    (∃ obj1, objectsGet c2db1 Table.course c2course.pk = some obj1 ∧
      ensure_draft_world c2partner {} c2db1 obj1 = (c2db1, Except.ok c2d)) := by
  refine ⟨?_, ?_, ?_⟩
  · exact (claim_C2 c2partner {} c2dbL c2draft).1 (by decide)
  · exact (claim_C2 c2partner {} c2dbL c2off).2.1 9 c2draft (by decide) (by decide)
      (by decide)
  · exact (claim_C2 c2partner {} c2db c2course).2.2 c2db1 c2d (by decide)
      (by decide) (by decide) (by decide)

end CourseDiscovery

